import Mathlib

/-!
Verification development for the NEAR Auto-Earn agent's Job Lifecycle
Orchestrator (`auto-earn.js`).  The JavaScript source is embedded shallowly:

* JS numbers that hold money amounts are idealised as `ℚ` (the amounts in
  play are decimal literals, exactly representable); the special value `NaN`
  produced by `parseFloat` on a non-numeric string is modelled as `none` in
  `Option ℚ`.
* The mutable `STATE`/`CONFIG` globals become an explicit `AgentState`
  record threaded through each operation.
* Network responses, AI-collaborator output and subprocess results are
  supplied as explicit oracle/environment arguments; a rejected promise
  that the source does not catch is modelled with `Except`.
* Strings manipulated character-wise by `parseGeneratedFiles` are modelled
  as `List Char`.
-/

namespace AutoEarn

/-- JS `\s` whitespace class restricted to the ASCII range used here. -/
def isSpc (c : Char) : Bool :=
  c = ' ' || c = '\t' || c = '\n' || c = '\r' || c = Char.ofNat 11 || c = Char.ofNat 12

/-- JS truthiness of a nullable string (`null`/`undefined`/`""` are falsy). -/
def jsTruthyOptStr : Option String → Bool
  | none => false
  | some s => s ≠ ""

/-- Two-digit zero padding for the fractional part of `toFixed(2)`. -/
def pad2 (n : Nat) : String :=
  if n < 10 then "0" ++ toString n else toString n

/-- Round a rational to the nearest integer, halves up: `⌊q + 1/2⌋`,
computed directly on the numerator/denominator so it evaluates. -/
def jsRound (q : ℚ) : Int :=
  Int.fdiv (2 * q.num + (q.den : Int)) (2 * (q.den : Int))

/-- `Math.max` on two (non-`NaN`) numbers. -/
def jsMax (x y : ℚ) : ℚ :=
  if x < y then y else x

/-- JS `x.toFixed(2)` on an idealised number: `none` is `NaN` (which prints
as the string `"NaN"`). Rounding is round-half-up, matching `toFixed` on the
exactly-representable decimal amounts this program computes. -/
def jsToFixed2 : Option ℚ → String
  | none => "NaN"
  | some q =>
    let n : Int := jsRound (100 * q)
    (if n < 0 then "-" else "") ++ toString (n.natAbs / 100) ++ "." ++ pad2 (n.natAbs % 100)

/-- The `budget_amount` field of a job as the marketplace may deliver it. -/
inductive BudgetField
  | bNull
  | bMissing
  | bNum (q : ℚ)
  | bEmptyStr
  | bNumStr (q : ℚ)
  | bNonNumStr
deriving DecidableEq

/-- `parseFloat(job.budget_amount || 0)` : `null`/`undefined`/`0`/`""` are
falsy, so `0` is parsed; a non-numeric string parses to `NaN` (`none`). -/
def parseBudgetField : BudgetField → Option ℚ
  | .bNull => some 0
  | .bMissing => some 0
  | .bNum q => some q
  | .bEmptyStr => some 0
  | .bNumStr q => some q
  | .bNonNumStr => none

/-- The `categoryMultipliers` table with its `|| 0.40` default. -/
def categoryMultipliers (category : String) : ℚ :=
  if category = "security" then 0.55
  else if category = "smart-contract" then 0.50
  else if category = "analytics" then 0.45
  else if category = "backend" then 0.45
  else if category = "data" then 0.40
  else if category = "bot" then 0.40
  else if category = "frontend" then 0.40
  else if category = "documentation" then 0.35
  else if category = "testing" then 0.35
  else if category = "general" then 0.40
  else 0.40

/-- `calculateBidAmount(job, category)`.  The `budget` argument is the
parsed `parseFloat(job.budget_amount || 0)`; `bidStrategy` is
`CONFIG.bidStrategy`.  When the parse yields `NaN` (`none`) the guard
`budget <= 0` is false in JS, so control falls through and `NaN`
propagates through `*`, `Math.max` and `toFixed` to the string `"NaN"`. -/
def calculateBidAmount (budget : Option ℚ) (category bidStrategy : String) : String :=
  match budget with
  | some b =>
    if b ≤ 0 then "0.80"
    else
      let baseRatio := categoryMultipliers category
      let r1 := if bidStrategy = "aggressive" then baseRatio * 0.75 else baseRatio
      let r2 := if bidStrategy = "conservative" then r1 * 1.35 else r1
      jsToFixed2 (some (jsMax (b * r2) 0.1))
  | none => jsToFixed2 none

/-! ## Lifecycle state

`STATE`/`CONFIG` fields that the lifecycle claims are about.  Timestamps
(`placedAt`, `deliveredAt`, `paidAt`) are opaque strings supplied by the
caller; `tags`/`escrowAmount`, pure log lines and the dashboard counters
that no claim mentions are omitted. -/

/-- The record `{ jobId, amount, title, placedAt }` pushed onto
`STATE.pendingBids` (timestamp omitted). -/
structure PendingBid where
  jobId : String
  amount : String
  title : String
deriving DecidableEq

/-- The orchestrator-local tracked job created by `checkBids`. -/
structure TrackedJob where
  jobId : String
  bidId : String
  amount : ℚ
  title : String
  description : String
  status : String
  messageSent : Bool
  assignmentId : Option String
  assignmentStatus : Option String
  deliveredAt : Option String
  paidAt : Option String
  changesFeedback : Option String
deriving DecidableEq

/-- One entry of a job's `my_assignments` array. -/
structure AssignmentInfo where
  assignment_id : String
  status : String
deriving DecidableEq

/-- The mutable process state (`STATE` plus `CONFIG.alreadyBidJobIds`).
`submitLog` records the job ids for which a `POST /jobs/{id}/submit`
request was actually issued (an observational I/O trace, not a `STATE`
field). -/
structure AgentState where
  pendingBids : List PendingBid
  activeJobs : List TrackedJob
  deliveredJobs : List TrackedJob
  paidJobs : List TrackedJob
  alreadyBidJobIds : List String
  totalEarnings : ℚ
  bidsPlaced : Nat
  bidsWon : Nat
  submitLog : List String
deriving DecidableEq

/-- Fresh state: every collection empty, counters zero. -/
def initialState : AgentState :=
  ⟨[], [], [], [], [], 0, 0, 0, []⟩

/-- `CONFIG.alreadyBidJobIds.add(id)` on the list-modelled set. -/
def addId (l : List String) (id : String) : List String :=
  if l.contains id then l else l ++ [id]

/-- Outcome of one `apiRequest` call: an HTTP status, or a connection-level
failure (timeout/DNS/reset) that rejects the promise. -/
inductive HttpResult
  | ok (status : Nat)
  | transportError
deriving DecidableEq

/-- A discovered job as passed to `placeBid` (`job.job_id || job.id`
collapsed into `jobId`). -/
structure JobPost where
  jobId : String
  budget : BudgetField
  title : String
deriving DecidableEq

/-- `placeBid(job)`.  The category comes from `categorizeJob`, the strategy
from `CONFIG.bidStrategy`; both are opaque inputs here.  A transport error in
the uncaught `await apiRequest` rejects out of the function (`Except.error`),
in which case no state change has happened.  On any HTTP response, success
or not, the job id is added to `alreadyBidJobIds`; only a 2xx additionally
increments `bidsPlaced` and returns the pending-bid record. -/
def placeBid (job : JobPost) (category bidStrategy : String) (res : HttpResult)
    (st : AgentState) : Except Unit (Option PendingBid × AgentState) :=
  let amount := calculateBidAmount (parseBudgetField job.budget) category bidStrategy
  match res with
  | .transportError => .error ()
  | .ok status =>
    if status = 200 ∨ status = 201 then
      .ok (some ⟨job.jobId, amount, job.title⟩,
        { st with
            bidsPlaced := st.bidsPlaced + 1
            alreadyBidJobIds := addId st.alreadyBidJobIds job.jobId })
    else
      .ok (none, { st with alreadyBidJobIds := addId st.alreadyBidJobIds job.jobId })

/-- The bid placement step of `earningLoop`: `placeBid` plus
`if (bid) STATE.pendingBids.push(bid)`. -/
def bidStep (job : JobPost) (category bidStrategy : String) (res : HttpResult)
    (st : AgentState) : Except Unit AgentState :=
  match placeBid job category bidStrategy res st with
  | .error e => .error e
  | .ok (some bid, st1) => .ok { st1 with pendingBids := st1.pendingBids ++ [bid] }
  | .ok (none, st1) => .ok st1

/-- Result of `GET /jobs/{id}` as consumed by `checkBids`
(`jobRes.status === 200 ? jobRes.data : {}`). -/
structure JobDetailRes where
  status : Nat
  title : Option String
  description : Option String
  my_assignments : List AssignmentInfo

/-- One bid from `GET /agents/me/bids`. -/
structure BidInfo where
  job_id : String
  bid_id : String
  amount : ℚ
  status : String
deriving DecidableEq

/-- JS `x || dflt` for a nullable string (empty string is falsy). -/
def jsOrStr (x : Option String) (dflt : String) : String :=
  match x with
  | some s => if s = "" then dflt else s
  | none => dflt

/-- `myAssignments.find(a => a.status === 'in_progress') || myAssignments[0]`. -/
def pickAssignment (l : List AssignmentInfo) : Option AssignmentInfo :=
  match l.find? (fun a => a.status = "in_progress") with
  | some a => some a
  | none => l.head?

/-- Body of `checkBids`' loop for one accepted bid: skip if the job id is
already tracked in `activeJobs`, `deliveredJobs` or `paidJobs`; otherwise
fetch the job detail, pick the matching assignment and push a fresh
`TrackedJob` in state `awarded`. -/
def processAcceptedBid (detail : String → JobDetailRes) (st : AgentState)
    (b : BidInfo) : AgentState :=
  if st.activeJobs.any (fun j => j.jobId = b.job_id)
      || st.deliveredJobs.any (fun j => j.jobId = b.job_id)
      || st.paidJobs.any (fun j => j.jobId = b.job_id) then st
  else
    let d := detail b.job_id
    let jd : Option String × Option String × List AssignmentInfo :=
      if d.status = 200 then (d.title, d.description, d.my_assignments)
      else (none, none, [])
    let myAssignment := pickAssignment jd.2.2
    { st with
        bidsWon := st.bidsWon + 1
        activeJobs := st.activeJobs ++
          [{ jobId := b.job_id
             bidId := b.bid_id
             amount := b.amount
             title := jsOrStr jd.1 "(unknown)"
             description := jsOrStr jd.2.1 ""
             status := "awarded"
             messageSent := false
             assignmentId := myAssignment.map (fun a => a.assignment_id)
             assignmentStatus := myAssignment.map (fun a => a.status)
             deliveredAt := none
             paidAt := none
             changesFeedback := none }] }

/-- `checkBids()`: fetch all bids (`fetchStatus`, `bids`), filter to
`accepted`, and fold the per-bid body over the state. -/
def checkBids (fetchStatus : Nat) (bids : List BidInfo)
    (detail : String → JobDetailRes) (st : AgentState) : AgentState :=
  if fetchStatus ≠ 200 then st
  else (bids.filter (fun b => b.status = "accepted")).foldl (processAcceptedBid detail) st

/-- Observation made for one delivered job by `checkForRequestChanges`:
the `GET /jobs/{id}` outcome and, when the code goes on to read feedback,
the `GET /assignments/{aid}/messages` outcome (`none` models a rejected
promise caught by the per-job `try`). -/
inductive ChangeObs
  | fetchErr
  | resp (status : Nat) (assignments : List AssignmentInfo)
      (msgRes : Option (Nat × List String))
deriving DecidableEq

/-- The in-place mutation applied to a delivered job when its assignment
has reverted to `in_progress`: status reset to `awarded`, `messageSent`
set `true`, the assignment id adopted, and the latest feedback message
attached when the (truthy-guarded) message fetch succeeds non-empty. -/
def reworkJob (dJob : TrackedJob) (a : AssignmentInfo)
    (msgRes : Option (Nat × List String)) : TrackedJob :=
  let j1 : TrackedJob :=
    { dJob with
        status := "awarded"
        messageSent := true
        assignmentId := some a.assignment_id }
  if jsTruthyOptStr j1.assignmentId then
    match msgRes with
    | some (code, msgs) =>
      if code = 200 then
        match msgs.getLast? with
        | some m => { j1 with changesFeedback := some m }
        | none => j1
      else j1
    | none => j1
  else j1

/-- Body of `checkForRequestChanges` for one delivered job (see
`reworkJob` for the mutation applied in the `in_progress` branch). -/
def processChangeJob (env : String → ChangeObs) (st : AgentState)
    (dJob : TrackedJob) : AgentState :=
  match env dJob.jobId with
  | .fetchErr => st
  | .resp status assignments msgRes =>
    if status ≠ 200 then st
    else
      match assignments.head? with
      | none => st
      | some a =>
        if a.status = "in_progress" then
          { st with
              activeJobs := st.activeJobs ++ [reworkJob dJob a msgRes]
              deliveredJobs := st.deliveredJobs.filter (fun j => j.jobId ≠ dJob.jobId) }
        else st

/-- `checkForRequestChanges()`: fold the per-job body over a snapshot of
`deliveredJobs` (`[...STATE.deliveredJobs]`). -/
def changesPhase (env : String → ChangeObs) (st : AgentState) : AgentState :=
  st.deliveredJobs.foldl (processChangeJob env) st

/-- Outcome of the `HEAD` request issued by `verifyUrlStatus`. -/
inductive UrlCheck
  | response (status : Nat)
  | transportError
  | timeout
deriving DecidableEq

/-- `verifyUrlStatus(url)`: resolves `true` exactly for a response status in
`[200, 400)`; an error or timeout resolves `false` (the promise never
rejects). -/
def verifyUrlStatus : UrlCheck → Bool
  | .response status => decide (200 ≤ status) && decide (status < 400)
  | .transportError => false
  | .timeout => false

/-- The deliverable produced by `doRealWork` (`{url, hash}`; the local
`content`/`filePath` fields never cross the submit boundary). -/
structure Deliverable where
  url : String
  hash : String
deriving DecidableEq

/-- Environment of the per-job submit step: the `sendWorkingMessage` fetch
and message-post outcomes, the `doRealWork` result (`none` = no deliverable),
the pre-flight URL check, and the status of `POST /jobs/{id}/submit`. -/
structure SubmitEnv where
  swmFetch : Option (Nat × List AssignmentInfo)
  swmPostOk : Bool
  work : Option Deliverable
  urlCheck : UrlCheck
  submitStatus : Nat

/-- `sendWorkingMessage(activeJob)`: no-op if `messageSent`; otherwise
discover the assignment id if it is still falsy (a throwing fetch is caught
and leaves the job as-is), then post the starting-work message and set
`messageSent` — unless the post itself throws, which is caught after the
assignment id was already stored. -/
def adoptAssignment (code : Nat) (assignments : List AssignmentInfo)
    (j : TrackedJob) : TrackedJob :=
  if code = 200 then
    match pickAssignment assignments with
    | some a => { j with assignmentId := some a.assignment_id }
    | none => j
  else j

/-- `if (activeJob.assignmentId) { await POST ...; messageSent = true }`:
the message is posted only behind the truthiness guard, and `messageSent`
is only set when the post does not throw. -/
def maybeMarkSent (postOk : Bool) (j : TrackedJob) : TrackedJob :=
  if jsTruthyOptStr j.assignmentId then
    if postOk then { j with messageSent := true } else j
  else j

def sendWorkingMessageUpd (e : SubmitEnv) (j : TrackedJob) : TrackedJob :=
  if j.messageSent then j
  else if jsTruthyOptStr j.assignmentId then maybeMarkSent e.swmPostOk j
  else
    match e.swmFetch with
    | none => j
    | some (code, assignments) =>
      maybeMarkSent e.swmPostOk (adoptAssignment code assignments j)

/-- The in-place mutations `job.status = 'delivered'; job.deliveredAt = ...`
followed by `STATE.deliveredJobs.push(job)` and
`STATE.activeJobs = STATE.activeJobs.filter(j => j.jobId !== job.jobId)`. -/
def deliverMove (now : String) (j : TrackedJob) (st : AgentState) : AgentState :=
  let j2 : TrackedJob := { j with status := "delivered", deliveredAt := some now }
  { st with
      deliveredJobs := st.deliveredJobs ++ [j2]
      activeJobs := st.activeJobs.filter (fun x => x.jobId ≠ j.jobId) }

/-- Branch on the submit response status: 200/201 and 409 alike move the
job to `delivered` locally; any other status only logs. -/
def applySubmitResult (now : String) (status : Nat) (j : TrackedJob)
    (st : AgentState) : AgentState :=
  if status = 200 ∨ status = 201 then deliverMove now j st
  else if status = 409 then deliverMove now j st
  else st

/-- Body of the work-and-deliver step of `earningLoop` for one snapshot
element: only `awarded` jobs are touched; `sendWorkingMessage` mutates the
job in place (modelled by mapping the replacement over `activeJobs`); a
missing deliverable skips; a failed pre-flight check skips without issuing
the submit request; otherwise the submit request is recorded and its status
drives `applySubmitResult`. -/
def submitAfterMessage (now : String) (e : SubmitEnv) (j1 : TrackedJob)
    (st1 : AgentState) (jobId : String) : AgentState :=
  match e.work with
  | none => st1
  | some _ =>
    if verifyUrlStatus e.urlCheck = false then st1
    else
      applySubmitResult now e.submitStatus j1
        { st1 with submitLog := st1.submitLog ++ [jobId] }

def processSubmitJob (now : String) (env : String → SubmitEnv) (st : AgentState)
    (job : TrackedJob) : AgentState :=
  if job.status ≠ "awarded" then st
  else
    submitAfterMessage now (env job.jobId) (sendWorkingMessageUpd (env job.jobId) job)
      { st with
          activeJobs := st.activeJobs.map (fun x =>
            if x.jobId = job.jobId then sendWorkingMessageUpd (env job.jobId) job else x) }
      job.jobId

/-- The whole work-and-deliver step: fold over a snapshot of
`activeJobs`. -/
def submitPhase (now : String) (env : String → SubmitEnv) (st : AgentState) :
    AgentState :=
  st.activeJobs.foldl (processSubmitJob now env) st

/-- Observation made for one delivered job by the payment check: the
`GET /jobs/{id}` outcome (`fetchErr` models a rejected promise caught by the
per-job `try`), with the job status, first assignment status and
`worker_agent_id` of the response body. -/
inductive PayObs
  | fetchErr
  | resp (status : Nat) (jobStatus : String) (assignmentStatus : Option String)
      (workerId : Option String)
deriving DecidableEq

/-- Does this observation make the payment check accrue earnings?  Mirrors
the two paying branches of the source. -/
def payingObs : PayObs → Bool
  | .fetchErr => false
  | .resp status jobStatus assignmentStatus workerId =>
    status = 200 &&
      (jobStatus = "completed" || assignmentStatus = some "accepted"
        || (jobStatus = "closed" && jsTruthyOptStr workerId))

/-- `STATE.totalEarnings += dJob.amount; dJob.paidAt = ...;`
`STATE.paidJobs.push(dJob); STATE.deliveredJobs = ...filter(...)`. -/
def payMove (now : String) (dJob : TrackedJob) (st : AgentState) : AgentState :=
  { st with
      totalEarnings := st.totalEarnings + dJob.amount
      paidJobs := st.paidJobs ++ [{ dJob with paidAt := some now }]
      deliveredJobs := st.deliveredJobs.filter (fun j => j.jobId ≠ dJob.jobId) }

/-- Body of the payment check for one delivered job. -/
def processPaymentJob (now : String) (env : String → PayObs) (st : AgentState)
    (dJob : TrackedJob) : AgentState :=
  match env dJob.jobId with
  | .fetchErr => st
  | .resp status jobStatus assignmentStatus workerId =>
    if status ≠ 200 then st
    else if jobStatus = "completed" || assignmentStatus = some "accepted" then
      payMove now dJob st
    else if jobStatus = "closed" && jsTruthyOptStr workerId then
      payMove now dJob st
    else if jobStatus = "expired" then
      { st with deliveredJobs := st.deliveredJobs.filter (fun j => j.jobId ≠ dJob.jobId) }
    else st

/-- The payment check: fold over a snapshot of `deliveredJobs`. -/
def paymentPhase (now : String) (env : String → PayObs) (st : AgentState) :
    AgentState :=
  st.deliveredJobs.foldl (processPaymentJob now env) st

/-! ## Job-id counting and the disjointness invariants -/

/-- Number of tracked jobs in `l` carrying the identifier `id`. -/
def countIn (id : String) (l : List TrackedJob) : Nat :=
  (l.filter (fun j => j.jobId = id)).length

/-- Number of pending bids in `l` carrying the identifier `id`. -/
def countBids (id : String) (l : List PendingBid) : Nat :=
  (l.filter (fun b => b.jobId = id)).length

/-- Total of the cached bid amounts of a list of tracked jobs. -/
def sumAmounts (l : List TrackedJob) : ℚ :=
  (l.map (fun j => j.amount)).sum

/-- The disjointness the claim states, over all four collections including
`pendingBids`. -/
def ClaimedDisjoint (st : AgentState) : Prop :=
  ∀ id : String,
    countBids id st.pendingBids + countIn id st.activeJobs
      + countIn id st.deliveredJobs + countIn id st.paidJobs ≤ 1

/-- The disjointness the code actually maintains: `activeJobs`,
`deliveredJobs` and `paidJobs` are pairwise disjoint (each id occurs at most
once across the three). -/
def TrackedDisjoint (st : AgentState) : Prop :=
  ∀ id : String,
    countIn id st.activeJobs + countIn id st.deliveredJobs
      + countIn id st.paidJobs ≤ 1

/-! ## parseGeneratedFiles and the fix-prompt serialisation

Strings are modelled as `List Char`.  The regexes of the source are
implemented with their leftmost-match, greedy semantics:

* `output.split(/={3,}\s*FILE:\s*/i)` — `splitMarker`;
* `.replace(/={3,}/g, '')` — `removeEqRuns`;
* `.replace(/\n={3,}\s*$/g, '')` — `stripTrailingEqMarker`;
* `.trim()` — `trimChars`;
* `.replace(/^```[a-z]*\n/i, '')` — `stripLeadingFence`;
* `.replace(/\n```\s*$/g, '')` — `stripTrailingFence`.
-/

/-- One `{path, content}` pair of generated output. -/
structure GenFile where
  path : List Char
  content : List Char
deriving DecidableEq

/-- Case-insensitive ASCII letter test (for the `[a-z]*` with `/i`). -/
def isAsciiLetterCI (c : Char) : Bool :=
  ('a' ≤ c.toLower && c.toLower ≤ 'z')

/-- The `FILE:` part of the split pattern (case-insensitive) followed by
the trailing greedy `\\s*`: match five characters `FILE:` at the head and
drop the whitespace after them. -/
def fileWord : List Char → Option (List Char)
  | c1 :: c2 :: c3 :: c4 :: c5 :: rest =>
    if c1.toLower = 'f' && c2.toLower = 'i' && c3.toLower = 'l'
        && c4.toLower = 'e' && c5 = ':' then
      some (rest.dropWhile isSpc)
    else none
  | _ => none

/-- Try to match the split pattern `={3,}\\s*FILE:\\s*` (case-insensitive)
at the head of `l`; on success return what follows the greedy match. -/
def matchMarker (l : List Char) : Option (List Char) :=
  if (l.takeWhile (fun c => c = '=')).length < 3 then none
  else fileWord ((l.dropWhile (fun c => c = '=')).dropWhile isSpc)

/-- The scanning core of `String.prototype.split` with the marker regex:
walk left to right, emitting the accumulated piece at each leftmost match.
The fuel argument only bounds the recursion; one unit is spent per step, so
`l.length` units always suffice (each step consumes at least one
character). -/
def splitMarkerAux : Nat → List Char → List Char → List (List Char)
  | _, [], acc => [acc.reverse]
  | 0, l, acc => [acc.reverse ++ l]
  | fuel + 1, c :: rest, acc =>
    match matchMarker (c :: rest) with
    | some r => acc.reverse :: splitMarkerAux fuel r []
    | none => splitMarkerAux fuel rest (c :: acc)

/-- `output.split(/={3,}\\s*FILE:\\s*/i)`. -/
def splitMarker (l : List Char) : List (List Char) :=
  splitMarkerAux l.length l []

/-- Helper for `removeEqRuns`: `k` counts the `'='` run read so far. -/
def removeEqAux : Nat → List Char → List Char
  | k, [] => if 3 ≤ k then [] else List.replicate k '='
  | k, c :: rest =>
    if c = '=' then removeEqAux (k + 1) rest
    else (if 3 ≤ k then [] else List.replicate k '=') ++ c :: removeEqAux 0 rest

/-- `.replace(/={3,}/g, '')`: drop every maximal run of three or more
`'='`. -/
def removeEqRuns (l : List Char) : List Char :=
  removeEqAux 0 l

def trimChars (l : List Char) : List Char :=
  (((l.dropWhile isSpc).reverse).dropWhile isSpc).reverse

/-- Does the trailing-marker pattern `\n={3,}\s*$` match starting here? -/
def isTrailMarkerAt : List Char → Bool
  | '\n' :: r =>
    3 ≤ (r.takeWhile (fun c => c = '=')).length
      && (r.dropWhile (fun c => c = '=')).all isSpc
  | _ => false

/-- `.replace(/\n={3,}\s*$/g, '')`: the leftmost position where the
pattern reaches the end of the string has everything from it removed. -/
def stripTrailingEqMarker : List Char → List Char
  | [] => []
  | c :: rest =>
    if isTrailMarkerAt (c :: rest) then []
    else c :: stripTrailingEqMarker rest

/-- `.replace(/^```[a-z]*\n/i, '')`. -/
def stripLeadingFence (l : List Char) : List Char :=
  match l with
  | '`' :: '`' :: '`' :: r =>
    match r.dropWhile isAsciiLetterCI with
    | '\n' :: tail => tail
    | _ => l
  | _ => l

/-- Does the trailing-fence pattern ``\n```\s*$`` match starting here? -/
def isTrailFenceAt : List Char → Bool
  | '\n' :: '`' :: '`' :: '`' :: r => r.all isSpc
  | _ => false

/-- `.replace(/\n```\s*$/g, '')`. -/
def stripTrailingFence : List Char → List Char
  | [] => []
  | c :: rest =>
    if isTrailFenceAt (c :: rest) then []
    else c :: stripTrailingFence rest

/-- `section.indexOf('\n')` plus the two `substring` calls: split a section
at its first newline, or `none` when there is none (`continue`). -/
def splitAtNewline : List Char → Option (List Char × List Char)
  | [] => none
  | '\n' :: r => some ([], r)
  | c :: r =>
    match splitAtNewline r with
    | some (a, b) => some (c :: a, b)
    | none => none

/-- The per-section body of `parseGeneratedFiles`' loop. -/
def processSection (s : List Char) : Option GenFile :=
  match splitAtNewline s with
  | none => none
  | some (before, after) =>
    let filePath := trimChars (removeEqRuns before)
    let content1 := trimChars (stripTrailingEqMarker after)
    let content2 := stripTrailingFence (stripLeadingFence content1)
    if filePath ≠ [] ∧ content2 ≠ [] then some ⟨filePath, content2⟩ else none

/-- `parseGeneratedFiles(output)`: split on the marker regex, skip the text
before the first marker, and parse each section. -/
def parseGeneratedFiles (output : List Char) : List GenFile :=
  match splitMarker output with
  | [] => []
  | _ :: sections => sections.filterMap processSection

/-- The serialisation used by `fixWithAI` to show the AI the current files:
`files.map(f => `=== FILE: ${f.path} ===\n${f.content}`).join('\n\n')`.
(The same `=== FILE: path ===` convention is what `buildWorkPrompt` asks
the generator to emit.) -/
def serializeFiles (files : List GenFile) : List Char :=
  List.intercalate "\n\n".toList (files.map (fun f =>
    "=== FILE: ".toList ++ f.path ++ " ===\n".toList ++ f.content))

/-- One file's contribution to the serialisation after its `=== FILE: `
marker: `path ===\ncontent`. -/
def blockBody (f : GenFile) : List Char :=
  f.path ++ " ===\n".toList ++ f.content

/-- The first character exists and is not whitespace (so the greedy
`\s*` of the marker regex stops exactly before the path). -/
def headNotSpc : List Char → Bool
  | [] => false
  | c :: _ => !(isSpc c)

/-- The pieces `split` produces from `serializeFiles files` after the
leading empty piece: each file's block body, with the `\n\n` joiner still
attached to every block but the last. -/
def sectionsOf : List GenFile → List (List Char)
  | [] => []
  | [f] => [blockBody f]
  | f :: g :: gs => (blockBody f ++ "\n\n".toList) :: sectionsOf (g :: gs)

/-- Conditions on a single file under which `parseGeneratedFiles` recovers
it exactly from the `fixWithAI` serialisation: non-empty path and content;
the path starts with a non-space character, has no newline, and survives
the `={3,}` removal and trimming of the header line; no suffix of the
file's block matches the marker regex; the content survives the
trailing-marker strip and trimming (both bare and with the `\n\n` joiner
appended) and the two fence strips. -/
def goodFile (f : GenFile) : Prop :=
  f.path ≠ [] ∧
  f.content ≠ [] ∧
  headNotSpc f.path = true ∧
  '\n' ∉ f.path ∧
  trimChars (removeEqRuns (f.path ++ " ===".toList)) = f.path ∧
  (∀ t ∈ (blockBody f).tails, matchMarker t = none) ∧
  trimChars (stripTrailingEqMarker f.content) = f.content ∧
  trimChars (stripTrailingEqMarker (f.content ++ "\n\n".toList)) = f.content ∧
  stripLeadingFence f.content = f.content ∧
  stripTrailingFence f.content = f.content

instance goodFileDecidable (f : GenFile) : Decidable (goodFile f) := by
  unfold goodFile
  infer_instance

/-- `fixWithAI`'s handling of the AI response: `none` models the CLI call
throwing (caught, originals returned); a parse with no files is a no-op;
otherwise matched paths are replaced and the fixed files appended. -/
def fixWithAIModel (files : List GenFile) (aiOutput : Option (List Char)) :
    List GenFile :=
  match aiOutput with
  | none => files
  | some out =>
    let fixedFiles := parseGeneratedFiles out
    if 0 < fixedFiles.length then
      let fixedPaths := fixedFiles.map (fun f => f.path)
      (files.filter (fun f => ¬ fixedPaths.contains f.path)) ++ fixedFiles
    else files

/-! ## The build-verify-fix loop of `doRealWork` -/

/-- Pass/fail result of one `execSync` validation step. -/
inductive StepRes
  | ok
  | fail
deriving DecidableEq

/-- Oracle for the Node.js build-and-test cycle: per attempt, the outcome of
`npm install`, `npm run build`, `npm test`, and the raw AI output of the
`fixWithAI` call made at that attempt (`none` = the CLI threw). -/
structure BuildEnv where
  install : Nat → StepRes
  build : Nat → StepRes
  test : Nat → StepRes
  fixOutput : Nat → Option (List Char)

/-- `const maxFixAttempts = 2`. -/
def maxFixAttempts : Nat := 2

/-- The `for (let attempt = 0; attempt <= maxFixAttempts; attempt++)` loop.
`remaining = maxFixAttempts - attempt` so that `attempt < maxFixAttempts`
is `0 < remaining`.  An install failure breaks out immediately (`can't fix
install issues with AI`); a build or test failure triggers an AI fix and
`continue` only while attempts remain and the AI generated the files; any
tolerated failure just logs and proceeds.  Returns the final files and the
number of fix rounds performed. -/
def buildTestLoop (env : BuildEnv) (usedAI : Bool) :
    Nat → Nat → List GenFile → Nat → List GenFile × Nat
  | remaining, attempt, files, fixes =>
    match env.install attempt with
    | .fail => (files, fixes)
    | .ok =>
      if env.build attempt = .fail ∧ 0 < remaining ∧ usedAI = true then
        buildTestLoop env usedAI (remaining - 1) (attempt + 1)
          (fixWithAIModel files (env.fixOutput attempt)) (fixes + 1)
      else
        if env.test attempt = .fail ∧ 0 < remaining ∧ usedAI = true then
          buildTestLoop env usedAI (remaining - 1) (attempt + 1)
            (fixWithAIModel files (env.fixOutput attempt)) (fixes + 1)
        else (files, fixes)
termination_by remaining _ _ _ => remaining
decreasing_by
  · omega
  · omega

/-- The whole bounded retry cycle as entered by `doRealWork` for a Node.js
project. -/
def runBuildVerifyFix (env : BuildEnv) (usedAI : Bool) (files : List GenFile) :
    List GenFile × Nat :=
  buildTestLoop env usedAI maxFixAttempts 0 files 0

/-- The tail of `doRealWork`: whatever the build cycle left behind, the
deliverable is built from the final files and published; only a hosting
failure yields `null` (no `file://` fallback). -/
def doRealWorkModel (env : BuildEnv) (usedAI : Bool) (files : List GenFile)
    (publish : List GenFile → Option String) : Option String :=
  publish (runBuildVerifyFix env usedAI files).1

/-! ## Theorems -/

theorem dropWhile_length_le (p : Char → Bool) (l : List Char) :
    (l.dropWhile p).length ≤ l.length := by
  induction l with
  | nil => simp
  | cons c rest ih =>
    by_cases hc : p c
    · simp only [List.dropWhile_cons, hc, if_true]
      exact Nat.le_succ_of_le ih
    · simp [List.dropWhile_cons, hc]

theorem fileWord_length {l r : List Char} (h : fileWord l = some r) :
    r.length + 5 ≤ l.length := by
  unfold fileWord at h
  cases l with
  | nil => cases h
  | cons c1 t1 =>
    cases t1 with
    | nil => cases h
    | cons c2 t2 =>
      cases t2 with
      | nil => cases h
      | cons c3 t3 =>
        cases t3 with
        | nil => cases h
        | cons c4 t4 =>
          cases t4 with
          | nil => cases h
          | cons c5 rest =>
            dsimp only at h
            by_cases hc : (c1.toLower = 'f' && c2.toLower = 'i' && c3.toLower = 'l'
                && c4.toLower = 'e' && c5 = ':') = true
            · rw [if_pos hc, Option.some_inj] at h
              have := dropWhile_length_le isSpc rest
              rw [h] at this
              simp only [List.length_cons]
              omega
            · rw [if_neg hc] at h
              cases h

theorem matchMarker_length {l r : List Char} (h : matchMarker l = some r) :
    r.length < l.length := by
  unfold matchMarker at h
  by_cases h3 : (l.takeWhile (fun c => c = '=')).length < 3
  · rw [if_pos h3] at h; cases h
  · rw [if_neg h3] at h
    have h5 := fileWord_length h
    have hd1 := dropWhile_length_le isSpc (l.dropWhile (fun c => c = '='))
    have hsplit : (l.takeWhile (fun c => c = '=')).length
        + (l.dropWhile (fun c => c = '=')).length = l.length := by
      rw [← List.length_append, List.takeWhile_append_dropWhile]
    omega

/-- C6: for every positive budget, `calculateBidAmount` returns
`max(budget × categoryMultiplier × strategyFactor, 0.1)` rendered with two
decimals, where `aggressive` multiplies the category multiplier by `0.75`
and `conservative` by `1.35`; in particular budget `10.0`, category
multiplier `0.5` (category `smart-contract`), strategy `aggressive` gives
the bid amount `3.75`. -/
theorem claim_C6_bid_formula (b : ℚ) (category : String) (h : 0 < b) :
    calculateBidAmount (some b) category "aggressive" =
      jsToFixed2 (some (jsMax (b * (categoryMultipliers category * 0.75)) 0.1)) ∧
    calculateBidAmount (some b) category "conservative" =
      jsToFixed2 (some (jsMax (b * (categoryMultipliers category * 1.35)) 0.1)) ∧
    calculateBidAmount (some 10) "smart-contract" "aggressive" = "3.75" := by
  have hb : ¬ (b ≤ 0) := not_le.mpr h
  refine ⟨?_, ?_, ?_⟩
  · simp +decide [calculateBidAmount, hb]
  · simp +decide [calculateBidAmount, hb]
  · simp +decide only [calculateBidAmount, categoryMultipliers]
    norm_num [jsMax]
    have h100 : (100 : ℚ) * (15 / 4) = 375 := by norm_num
    rw [jsToFixed2, h100]
    decide

/-- Witness for C6 at budget 10, category `general` (multiplier 0.4). -/
theorem claim_C6_bid_formula_witness :
    (0 : ℚ) < 10 ∧
    (calculateBidAmount (some 10) "general" "aggressive" =
        jsToFixed2 (some (jsMax ((10 : ℚ) * (categoryMultipliers "general" * 0.75)) 0.1)) ∧
      calculateBidAmount (some 10) "general" "conservative" =
        jsToFixed2 (some (jsMax ((10 : ℚ) * (categoryMultipliers "general" * 1.35)) 0.1)) ∧
      calculateBidAmount (some 10) "smart-contract" "aggressive" = "3.75") :=
  ⟨by norm_num, claim_C6_bid_formula 10 "general" (by norm_num)⟩

/-- C10, counterexample: for a job whose `budget_amount` is a non-numeric
string, `parseFloat` yields `NaN`, the `budget <= 0` guard is false, and
`calculateBidAmount` returns `"NaN"`, not the claimed `"0.80"`. -/
theorem claim_C10_counterexample :
    calculateBidAmount (parseBudgetField BudgetField.bNonNumStr) "general" "aggressive" = "NaN" ∧
    calculateBidAmount (parseBudgetField BudgetField.bNonNumStr) "general" "aggressive" ≠ "0.80" := by
  constructor
  · rfl
  · decide

/-- C10, amended: for every `budget_amount` whose `parseFloat` yields a
number `≤ 0` (null, missing, zero, empty string, negative), the result is
`"0.80"` for every category and strategy; for a non-numeric string the
parse is `NaN` and the result is the string `"NaN"` instead. -/
theorem claim_C10_nonpositive_budget :
    (∀ (f : BudgetField) (q : ℚ) (category strategy : String),
      parseBudgetField f = some q → q ≤ 0 →
      calculateBidAmount (parseBudgetField f) category strategy = "0.80") ∧
    (∀ category strategy : String,
      calculateBidAmount (parseBudgetField BudgetField.bNonNumStr) category strategy = "NaN") := by
  constructor
  · intro f q category strategy hf hq
    rw [hf]
    simp [calculateBidAmount, hq]
  · intro category strategy
    rfl

/-- Witness for C10's amended claim at `budget_amount = null`. -/
theorem claim_C10_nonpositive_budget_witness :
    calculateBidAmount (parseBudgetField BudgetField.bNull) "general" "aggressive" = "0.80" :=
  claim_C10_nonpositive_budget.1 BudgetField.bNull 0 "general" "aggressive" rfl (by norm_num)

/-- C2: whenever `placeBid` completes (returns rather than rejecting), the
job id is in `alreadyBidJobIds` afterwards, no matter whether the HTTP
status was 2xx or anything else; a transport error rejects the promise, so
no completing call leaves the id out. -/
theorem claim_C2_placeBid_always_marks (job : JobPost) (category bidStrategy : String)
    (res : HttpResult) (st : AgentState) (out : Option PendingBid × AgentState)
    (h : placeBid job category bidStrategy res st = Except.ok out) :
    job.jobId ∈ out.2.alreadyBidJobIds ∧
    placeBid job category bidStrategy HttpResult.transportError st = Except.error () := by
  refine ⟨?_, rfl⟩
  have hmem : ∀ l : List String, job.jobId ∈ addId l job.jobId := by
    intro l
    unfold addId
    by_cases hc : job.jobId ∈ l
    · simp [hc]
    · simp [hc]
  cases res with
  | transportError => simp [placeBid] at h
  | ok status =>
    by_cases hs : status = 200 ∨ status = 201
    · simp only [placeBid, hs, if_true] at h
      cases h
      exact hmem _
    · simp only [placeBid, hs, if_false] at h
      cases h
      exact hmem _

/-- Witness for C2: a 500 response still records the job id. -/
theorem claim_C2_placeBid_always_marks_witness :
    ("j1" : String) ∈
      ((placeBid ⟨"j1", BudgetField.bNull, "t"⟩ "general" "aggressive"
          (HttpResult.ok 500) initialState).toOption.getD
        (none, initialState)).2.alreadyBidJobIds ∧
    placeBid ⟨"j1", BudgetField.bNull, "t"⟩ "general" "aggressive"
        HttpResult.transportError initialState = Except.error () := by
  have h := claim_C2_placeBid_always_marks ⟨"j1", BudgetField.bNull, "t"⟩ "general"
    "aggressive" (HttpResult.ok 500) initialState
    ((placeBid ⟨"j1", BudgetField.bNull, "t"⟩ "general" "aggressive"
        (HttpResult.ok 500) initialState).toOption.getD (none, initialState))
    (by rfl)
  exact ⟨h.1, h.2⟩

/-! ## Counting helpers -/

theorem countIn_nil (id : String) : countIn id [] = 0 := rfl

theorem countIn_cons (id : String) (x : TrackedJob) (l : List TrackedJob) :
    countIn id (x :: l) = countIn id l + (if x.jobId = id then 1 else 0) := by
  by_cases h : x.jobId = id <;> simp [countIn, List.filter_cons, h]

theorem countIn_append (id : String) (l1 l2 : List TrackedJob) :
    countIn id (l1 ++ l2) = countIn id l1 + countIn id l2 := by
  simp [countIn, List.filter_append]

theorem countIn_singleton (id : String) (x : TrackedJob) :
    countIn id [x] = if x.jobId = id then 1 else 0 := by
  by_cases h : x.jobId = id <;> simp [countIn, h]

theorem countIn_filter_ne (id j : String) (l : List TrackedJob) :
    countIn id (l.filter (fun x => x.jobId ≠ j)) =
      if id = j then 0 else countIn id l := by
  induction l with
  | nil => by_cases h : id = j <;> simp [countIn, h]
  | cons x rest ih =>
    rw [List.filter_cons]
    by_cases hx : x.jobId = j
    · have hxne : (decide (x.jobId ≠ j)) = false := by simp [hx]
      rw [hxne, if_neg (by simp), ih, countIn_cons]
      by_cases hid : id = j
      · simp [hid]
      · have hxid : ¬ (x.jobId = id) := by
          intro h
          exact hid (by rw [← h, hx])
        rw [if_neg hid, if_neg hid, if_neg hxid]
        omega
    · have hxne : (decide (x.jobId ≠ j)) = true := by simp [hx]
      rw [hxne, if_pos rfl, countIn_cons, ih, countIn_cons]
      by_cases hid : id = j
      · have hxid : ¬ (x.jobId = id) := by
          intro h
          exact hx (by rw [h, hid])
        rw [if_pos hid, if_pos hid, if_neg hxid]
      · rw [if_neg hid, if_neg hid]

theorem countIn_map_replace (id j : String) (r : TrackedJob) (l : List TrackedJob)
    (hr : r.jobId = j) :
    countIn id (l.map (fun x => if x.jobId = j then r else x)) = countIn id l := by
  induction l with
  | nil => rfl
  | cons x rest ih =>
    rw [List.map_cons, countIn_cons, countIn_cons, ih]
    by_cases hx : x.jobId = j
    · have : (if x.jobId = j then r else x).jobId = x.jobId := by
        rw [if_pos hx, hr, hx]
      rw [this]
    · rw [if_neg hx]

theorem countIn_pos_of_mem {x : TrackedJob} {l : List TrackedJob} (h : x ∈ l) :
    1 ≤ countIn x.jobId l := by
  induction l with
  | nil => cases h
  | cons y rest ih =>
    rw [countIn_cons]
    rcases List.mem_cons.mp h with h1 | h1
    · subst h1; simp
    · have := ih h1; omega

theorem countIn_eq_zero_of_any_false {id : String} {l : List TrackedJob}
    (h : l.any (fun j => j.jobId = id) = false) : countIn id l = 0 := by
  induction l with
  | nil => rfl
  | cons x rest ih =>
    simp only [List.any_cons, Bool.or_eq_false_iff] at h
    have hx : ¬ (x.jobId = id) := by simpa using h.1
    rw [countIn_cons, ih h.2, if_neg hx]

theorem all_ne_of_countIn_zero {id : String} {l : List TrackedJob}
    (h : countIn id l = 0) : ∀ x ∈ l, x.jobId ≠ id := by
  induction l with
  | nil => intro x hx; cases hx
  | cons y rest ih =>
    rw [countIn_cons] at h
    intro x hx
    rcases List.mem_cons.mp hx with h1 | h1
    · subst h1
      intro hy
      rw [if_pos hy] at h
      omega
    · exact ih (by omega) x h1

theorem pairwise_ne_of_countIn_le_one {l : List TrackedJob}
    (h : ∀ id, countIn id l ≤ 1) :
    l.Pairwise (fun a b => a.jobId ≠ b.jobId) := by
  induction l with
  | nil => exact List.Pairwise.nil
  | cons x rest ih =>
    refine List.Pairwise.cons ?_ (ih ?_)
    · intro y hy hxy
      have h1 := h x.jobId
      rw [countIn_cons, if_pos rfl] at h1
      have hr : 1 ≤ countIn x.jobId rest := by
        have hyx : y.jobId = x.jobId := hxy.symm
        have := countIn_pos_of_mem hy
        rwa [hyx] at this
      omega
    · intro id
      have h1 := h id
      rw [countIn_cons] at h1
      by_cases hx : x.jobId = id
      · rw [if_pos hx] at h1; omega
      · rw [if_neg hx] at h1; omega

theorem filter_eq_singleton_of_countIn_one {x : TrackedJob} {l : List TrackedJob}
    (hmem : x ∈ l) (hcount : countIn x.jobId l ≤ 1) :
    l.filter (fun j => j.jobId = x.jobId) = [x] := by
  induction l with
  | nil => cases hmem
  | cons y rest ih =>
    rw [countIn_cons] at hcount
    rcases List.mem_cons.mp hmem with h1 | h1
    · subst h1
      rw [if_pos rfl] at hcount
      have hz : countIn x.jobId rest = 0 := by omega
      have hnil : rest.filter (fun j => j.jobId = x.jobId) = [] := by
        have : (rest.filter (fun j => j.jobId = x.jobId)).length = 0 := hz
        exact List.eq_nil_of_length_eq_zero this
      simp [List.filter_cons, hnil]
    · by_cases hy : y.jobId = x.jobId
      · exfalso
        have := countIn_pos_of_mem h1
        rw [if_pos hy] at hcount
        omega
      · rw [if_neg hy] at hcount
        simpa [List.filter_cons, hy] using ih h1 (by omega)

theorem adoptAssignment_jobId (code : Nat) (assignments : List AssignmentInfo)
    (j : TrackedJob) : (adoptAssignment code assignments j).jobId = j.jobId := by
  unfold adoptAssignment
  repeat' split
  all_goals rfl

theorem adoptAssignment_status (code : Nat) (assignments : List AssignmentInfo)
    (j : TrackedJob) : (adoptAssignment code assignments j).status = j.status := by
  unfold adoptAssignment
  repeat' split
  all_goals rfl

theorem maybeMarkSent_jobId (postOk : Bool) (j : TrackedJob) :
    (maybeMarkSent postOk j).jobId = j.jobId := by
  unfold maybeMarkSent
  repeat' split
  all_goals rfl

theorem maybeMarkSent_status (postOk : Bool) (j : TrackedJob) :
    (maybeMarkSent postOk j).status = j.status := by
  unfold maybeMarkSent
  repeat' split
  all_goals rfl

theorem sendWorkingMessageUpd_jobId (e : SubmitEnv) (j : TrackedJob) :
    (sendWorkingMessageUpd e j).jobId = j.jobId := by
  unfold sendWorkingMessageUpd
  repeat' split
  all_goals first
    | rfl
    | rw [maybeMarkSent_jobId, adoptAssignment_jobId]
    | rw [maybeMarkSent_jobId]

theorem sendWorkingMessageUpd_status (e : SubmitEnv) (j : TrackedJob) :
    (sendWorkingMessageUpd e j).status = j.status := by
  unfold sendWorkingMessageUpd
  repeat' split
  all_goals first
    | rfl
    | rw [maybeMarkSent_status, adoptAssignment_status]
    | rw [maybeMarkSent_status]

/-! ## Shape of each per-job step -/

theorem submitAfterMessage_shape (now : String) (e : SubmitEnv) (j1 : TrackedJob)
    (st1 : AgentState) (jobId : String) (hid : j1.jobId = jobId) :
    ((submitAfterMessage now e j1 st1 jobId).deliveredJobs = st1.deliveredJobs ∧
      (submitAfterMessage now e j1 st1 jobId).activeJobs = st1.activeJobs ∧
      (submitAfterMessage now e j1 st1 jobId).paidJobs = st1.paidJobs) ∨
    (∃ j2 : TrackedJob, j2.jobId = jobId ∧
      (submitAfterMessage now e j1 st1 jobId).deliveredJobs = st1.deliveredJobs ++ [j2] ∧
      (submitAfterMessage now e j1 st1 jobId).activeJobs =
        st1.activeJobs.filter (fun y => y.jobId ≠ jobId) ∧
      (submitAfterMessage now e j1 st1 jobId).paidJobs = st1.paidJobs) := by
  unfold submitAfterMessage
  cases hw : e.work with
  | none => left; exact ⟨rfl, rfl, rfl⟩
  | some w =>
    by_cases hv : verifyUrlStatus e.urlCheck = false
    · left
      rw [if_pos hv]
      exact ⟨rfl, rfl, rfl⟩
    · rw [if_neg hv]
      unfold applySubmitResult
      by_cases h2 : e.submitStatus = 200 ∨ e.submitStatus = 201
      · right
        rw [if_pos h2]
        unfold deliverMove
        exact ⟨{ j1 with status := "delivered", deliveredAt := some now },
          hid, rfl, by rw [hid], rfl⟩
      · rw [if_neg h2]
        by_cases h4 : e.submitStatus = 409
        · right
          rw [if_pos h4]
          unfold deliverMove
          exact ⟨{ j1 with status := "delivered", deliveredAt := some now },
            hid, rfl, by rw [hid], rfl⟩
        · left
          rw [if_neg h4]
          exact ⟨rfl, rfl, rfl⟩

theorem processSubmitJob_shape (now : String) (env : String → SubmitEnv)
    (st : AgentState) (x : TrackedJob) :
    ((processSubmitJob now env st x).deliveredJobs = st.deliveredJobs ∧
      (∀ id, countIn id (processSubmitJob now env st x).activeJobs =
        countIn id st.activeJobs) ∧
      (processSubmitJob now env st x).paidJobs = st.paidJobs) ∨
    (∃ j2 : TrackedJob, j2.jobId = x.jobId ∧
      (processSubmitJob now env st x).deliveredJobs = st.deliveredJobs ++ [j2] ∧
      (∀ id, countIn id (processSubmitJob now env st x).activeJobs =
        if id = x.jobId then 0 else countIn id st.activeJobs) ∧
      (processSubmitJob now env st x).paidJobs = st.paidJobs) := by
  unfold processSubmitJob
  by_cases hstat : x.status ≠ "awarded"
  · left
    rw [if_pos hstat]
    exact ⟨rfl, fun _ => rfl, rfl⟩
  · rw [if_neg hstat]
    have hj1id : (sendWorkingMessageUpd (env x.jobId) x).jobId = x.jobId :=
      sendWorkingMessageUpd_jobId (env x.jobId) x
    have hmap : ∀ id, countIn id (st.activeJobs.map
        (fun y => if y.jobId = x.jobId then sendWorkingMessageUpd (env x.jobId) x else y)) =
          countIn id st.activeJobs :=
      fun id => countIn_map_replace id x.jobId _ st.activeJobs hj1id
    rcases submitAfterMessage_shape now (env x.jobId) (sendWorkingMessageUpd (env x.jobId) x)
        { st with
            activeJobs := st.activeJobs.map (fun y =>
              if y.jobId = x.jobId then sendWorkingMessageUpd (env x.jobId) x else y) }
        x.jobId hj1id with
      h | ⟨j2, hj2, hd, ha, hp⟩
    · left
      refine ⟨h.1, ?_, h.2.2⟩
      intro id
      rw [h.2.1]
      exact hmap id
    · right
      refine ⟨j2, hj2, hd, ?_, hp⟩
      intro id
      rw [ha, countIn_filter_ne]
      by_cases hid : id = x.jobId
      · rw [if_pos hid, if_pos hid]
      · rw [if_neg hid, if_neg hid, hmap id]

theorem reworkJob_jobId (d : TrackedJob) (a : AssignmentInfo)
    (msgRes : Option (Nat × List String)) : (reworkJob d a msgRes).jobId = d.jobId := by
  unfold reworkJob
  dsimp only
  repeat' split
  all_goals rfl

theorem reworkJob_status (d : TrackedJob) (a : AssignmentInfo)
    (msgRes : Option (Nat × List String)) : (reworkJob d a msgRes).status = "awarded" := by
  unfold reworkJob
  dsimp only
  repeat' split
  all_goals rfl

theorem reworkJob_messageSent (d : TrackedJob) (a : AssignmentInfo)
    (msgRes : Option (Nat × List String)) : (reworkJob d a msgRes).messageSent = true := by
  unfold reworkJob
  dsimp only
  repeat' split
  all_goals rfl

theorem reworkJob_feedback (d : TrackedJob) (a : AssignmentInfo)
    (msgs : List String) (m : String) (ha : a.assignment_id ≠ "")
    (hm : msgs.getLast? = some m) :
    (reworkJob d a (some (200, msgs))).changesFeedback = some m := by
  unfold reworkJob
  dsimp only
  rw [if_pos (by simpa [jsTruthyOptStr] using ha), if_pos rfl, hm]

theorem processPaymentJob_shape (now : String) (env : String → PayObs)
    (st : AgentState) (x : TrackedJob) :
    (processPaymentJob now env st x = st) ∨
    (∃ j2 : TrackedJob, j2.jobId = x.jobId ∧
      (processPaymentJob now env st x).paidJobs = st.paidJobs ++ [j2] ∧
      (processPaymentJob now env st x).deliveredJobs =
        st.deliveredJobs.filter (fun j => j.jobId ≠ x.jobId) ∧
      (processPaymentJob now env st x).activeJobs = st.activeJobs ∧
      (processPaymentJob now env st x).totalEarnings = st.totalEarnings + x.amount) ∨
    ((processPaymentJob now env st x).paidJobs = st.paidJobs ∧
      (processPaymentJob now env st x).deliveredJobs =
        st.deliveredJobs.filter (fun j => j.jobId ≠ x.jobId) ∧
      (processPaymentJob now env st x).activeJobs = st.activeJobs ∧
      (processPaymentJob now env st x).totalEarnings = st.totalEarnings) := by
  unfold processPaymentJob
  cases hobs : env x.jobId with
  | fetchErr => left; rfl
  | resp status jobStatus assignmentStatus workerId =>
    dsimp only
    by_cases hs : status ≠ 200
    · left; rw [if_pos hs]
    · rw [if_neg hs]
      by_cases hp1 : (jobStatus = "completed" || assignmentStatus = some "accepted") = true
      · right; left
        rw [if_pos hp1]
        unfold payMove
        exact ⟨{ x with paidAt := some now }, rfl, rfl, rfl, rfl, rfl⟩
      · rw [if_neg hp1]
        by_cases hp2 : (jobStatus = "closed" && jsTruthyOptStr workerId) = true
        · right; left
          rw [if_pos hp2]
          unfold payMove
          exact ⟨{ x with paidAt := some now }, rfl, rfl, rfl, rfl, rfl⟩
        · rw [if_neg hp2]
          by_cases he : jobStatus = "expired"
          · right; right
            rw [if_pos he]
            exact ⟨rfl, rfl, rfl, rfl⟩
          · left; rw [if_neg he]

theorem processChangeJob_shape (env : String → ChangeObs)
    (st : AgentState) (x : TrackedJob) :
    (processChangeJob env st x = st) ∨
    (∃ j2 : TrackedJob, j2.jobId = x.jobId ∧
      (processChangeJob env st x).activeJobs = st.activeJobs ++ [j2] ∧
      (processChangeJob env st x).deliveredJobs =
        st.deliveredJobs.filter (fun j => j.jobId ≠ x.jobId) ∧
      (processChangeJob env st x).paidJobs = st.paidJobs) := by
  unfold processChangeJob
  cases hobs : env x.jobId with
  | fetchErr => left; rfl
  | resp status assignments msgRes =>
    dsimp only
    by_cases hs : status ≠ 200
    · left; rw [if_pos hs]
    · rw [if_neg hs]
      cases hh : assignments.head? with
      | none => left; rfl
      | some a =>
        dsimp only
        by_cases hip : a.status = "in_progress"
        · right
          rw [if_pos hip]
          exact ⟨reworkJob x a msgRes, reworkJob_jobId x a msgRes, rfl, rfl, rfl⟩
        · left; rw [if_neg hip]

/-! ## Preservation of the tracked-collections disjointness -/

theorem foldl_preserve {β : Type} (f : AgentState → β → AgentState)
    (P : AgentState → Prop) (h : ∀ s x, P s → P (f s x)) :
    ∀ (l : List β) (s : AgentState), P s → P (l.foldl f s) := by
  intro l
  induction l with
  | nil => intro s hs; exact hs
  | cons x rest ih =>
    intro s hs
    rw [List.foldl_cons]
    exact ih (f s x) (h s x hs)

theorem trackedDisjoint_processAcceptedBid (detail : String → JobDetailRes)
    (st : AgentState) (b : BidInfo) (h : TrackedDisjoint st) :
    TrackedDisjoint (processAcceptedBid detail st b) := by
  unfold processAcceptedBid
  by_cases hg : (st.activeJobs.any (fun j => j.jobId = b.job_id)
      || st.deliveredJobs.any (fun j => j.jobId = b.job_id)
      || st.paidJobs.any (fun j => j.jobId = b.job_id)) = true
  · rw [if_pos hg]; exact h
  · rw [if_neg hg]
    simp only [Bool.or_eq_true, not_or] at hg
    have ha : countIn b.job_id st.activeJobs = 0 :=
      countIn_eq_zero_of_any_false (by
        cases hx : st.activeJobs.any (fun j => j.jobId = b.job_id)
        · rfl
        · exact absurd hx hg.1.1)
    have hd : countIn b.job_id st.deliveredJobs = 0 :=
      countIn_eq_zero_of_any_false (by
        cases hx : st.deliveredJobs.any (fun j => j.jobId = b.job_id)
        · rfl
        · exact absurd hx hg.1.2)
    have hp : countIn b.job_id st.paidJobs = 0 :=
      countIn_eq_zero_of_any_false (by
        cases hx : st.paidJobs.any (fun j => j.jobId = b.job_id)
        · rfl
        · exact absurd hx hg.2)
    intro id
    dsimp only
    rw [countIn_append, countIn_singleton]
    by_cases hid : b.job_id = id
    · subst hid
      rw [if_pos rfl, ha, hd, hp]
    · rw [if_neg (by exact hid)]
      have := h id
      omega

theorem trackedDisjoint_checkBids (fetchStatus : Nat) (bids : List BidInfo)
    (detail : String → JobDetailRes) (st : AgentState) (h : TrackedDisjoint st) :
    TrackedDisjoint (checkBids fetchStatus bids detail st) := by
  unfold checkBids
  by_cases hf : fetchStatus ≠ 200
  · rw [if_pos hf]; exact h
  · rw [if_neg hf]
    exact foldl_preserve _ _ (fun s x hs => trackedDisjoint_processAcceptedBid detail s x hs) _ st h

theorem submitFold_disjoint (now : String) (env : String → SubmitEnv) :
    ∀ (l : List TrackedJob) (st : AgentState),
      TrackedDisjoint st →
      (∀ x ∈ l, countIn x.jobId st.deliveredJobs = 0 ∧ countIn x.jobId st.paidJobs = 0) →
      l.Pairwise (fun a b => a.jobId ≠ b.jobId) →
      TrackedDisjoint (l.foldl (processSubmitJob now env) st) := by
  intro l
  induction l with
  | nil => intro st h _ _; exact h
  | cons x rest ih =>
    intro st h hdp hpw
    rw [List.foldl_cons]
    have hpwrest := List.Pairwise.of_cons hpw
    have hxne : ∀ y ∈ rest, x.jobId ≠ y.jobId := (List.pairwise_cons.mp hpw).1
    rcases processSubmitJob_shape now env st x with ⟨hd, ha, hp⟩ | ⟨j2, hj2, hd, ha, hp⟩
    · apply ih
      · intro id
        rw [ha id, hd, hp]
        exact h id
      · intro y hy
        rw [hd, hp]
        exact hdp y (List.mem_cons_of_mem x hy)
      · exact hpwrest
    · apply ih
      · intro id
        rw [ha id, hd, hp, countIn_append, countIn_singleton]
        by_cases hid : id = x.jobId
        · have h0 := hdp x (List.mem_cons_self x rest)
          rw [if_pos hid, if_pos (by rw [hj2, hid]), ← hid] at *
          omega
        · rw [if_neg hid, if_neg (by rw [hj2]; exact fun hh => hid hh.symm)]
          have := h id
          omega
      · intro y hy
        have hyx : ¬ (j2.jobId = y.jobId) := by rw [hj2]; exact hxne y hy
        rw [hd, hp, countIn_append, countIn_singleton, if_neg hyx]
        have := hdp y (List.mem_cons_of_mem x hy)
        omega
      · exact hpwrest

theorem paymentFold_disjoint (now : String) (env : String → PayObs) :
    ∀ (l : List TrackedJob) (st : AgentState),
      TrackedDisjoint st →
      (∀ x ∈ l, countIn x.jobId st.activeJobs = 0 ∧ countIn x.jobId st.paidJobs = 0) →
      l.Pairwise (fun a b => a.jobId ≠ b.jobId) →
      TrackedDisjoint (l.foldl (processPaymentJob now env) st) := by
  intro l
  induction l with
  | nil => intro st h _ _; exact h
  | cons x rest ih =>
    intro st h hdp hpw
    rw [List.foldl_cons]
    have hpwrest := List.Pairwise.of_cons hpw
    have hxne : ∀ y ∈ rest, x.jobId ≠ y.jobId := (List.pairwise_cons.mp hpw).1
    rcases processPaymentJob_shape now env st x with heq | ⟨j2, hj2, hpd, hdd, had, _⟩ | ⟨hpd, hdd, had, _⟩
    · rw [heq]
      exact ih st h (fun y hy => hdp y (List.mem_cons_of_mem x hy)) hpwrest
    · apply ih
      · intro id
        rw [had, hdd, countIn_filter_ne, hpd, countIn_append, countIn_singleton]
        by_cases hid : id = x.jobId
        · have h0 := hdp x (List.mem_cons_self x rest)
          rw [if_pos hid, if_pos (by rw [hj2, hid]), ← hid] at *
          omega
        · rw [if_neg hid, if_neg (by rw [hj2]; exact fun hh => hid hh.symm)]
          have := h id
          omega
      · intro y hy
        have hyx : ¬ (j2.jobId = y.jobId) := by rw [hj2]; exact hxne y hy
        rw [had, hpd, countIn_append, countIn_singleton, if_neg hyx]
        have := hdp y (List.mem_cons_of_mem x hy)
        omega
      · exact hpwrest
    · apply ih
      · intro id
        rw [had, hdd, countIn_filter_ne, hpd]
        by_cases hid : id = x.jobId
        · rw [if_pos hid]
          have := h id
          omega
        · rw [if_neg hid]
          exact h id
      · intro y hy
        rw [had, hpd]
        exact hdp y (List.mem_cons_of_mem x hy)
      · exact hpwrest

theorem changesFold_disjoint (env : String → ChangeObs) :
    ∀ (l : List TrackedJob) (st : AgentState),
      TrackedDisjoint st →
      (∀ x ∈ l, countIn x.jobId st.activeJobs = 0 ∧ countIn x.jobId st.paidJobs = 0) →
      l.Pairwise (fun a b => a.jobId ≠ b.jobId) →
      TrackedDisjoint (l.foldl (processChangeJob env) st) := by
  intro l
  induction l with
  | nil => intro st h _ _; exact h
  | cons x rest ih =>
    intro st h hdp hpw
    rw [List.foldl_cons]
    have hpwrest := List.Pairwise.of_cons hpw
    have hxne : ∀ y ∈ rest, x.jobId ≠ y.jobId := (List.pairwise_cons.mp hpw).1
    rcases processChangeJob_shape env st x with heq | ⟨j2, hj2, had, hdd, hpd⟩
    · rw [heq]
      exact ih st h (fun y hy => hdp y (List.mem_cons_of_mem x hy)) hpwrest
    · apply ih
      · intro id
        rw [had, hdd, countIn_filter_ne, hpd, countIn_append, countIn_singleton]
        by_cases hid : id = x.jobId
        · have h0 := hdp x (List.mem_cons_self x rest)
          rw [if_pos (by rw [hj2, hid]), if_pos hid, ← hid] at *
          omega
        · rw [if_neg hid, if_neg (by rw [hj2]; exact fun hh => hid hh.symm)]
          have := h id
          omega
      · intro y hy
        have hyx : ¬ (j2.jobId = y.jobId) := by rw [hj2]; exact hxne y hy
        rw [had, hpd, countIn_append, countIn_singleton, if_neg hyx]
        have := hdp y (List.mem_cons_of_mem x hy)
        omega
      · exact hpwrest

theorem trackedDisjoint_mem_delivered {st : AgentState} (h : TrackedDisjoint st) :
    ∀ x ∈ st.deliveredJobs, countIn x.jobId st.activeJobs = 0 ∧
      countIn x.jobId st.paidJobs = 0 := by
  intro x hx
  have h1 := countIn_pos_of_mem hx
  have h2 := h x.jobId
  omega

theorem trackedDisjoint_mem_active {st : AgentState} (h : TrackedDisjoint st) :
    ∀ x ∈ st.activeJobs, countIn x.jobId st.deliveredJobs = 0 ∧
      countIn x.jobId st.paidJobs = 0 := by
  intro x hx
  have h1 := countIn_pos_of_mem hx
  have h2 := h x.jobId
  omega

theorem trackedDisjoint_pairwise_active {st : AgentState} (h : TrackedDisjoint st) :
    st.activeJobs.Pairwise (fun a b => a.jobId ≠ b.jobId) := by
  apply pairwise_ne_of_countIn_le_one
  intro id
  have := h id
  omega

theorem trackedDisjoint_pairwise_delivered {st : AgentState} (h : TrackedDisjoint st) :
    st.deliveredJobs.Pairwise (fun a b => a.jobId ≠ b.jobId) := by
  apply pairwise_ne_of_countIn_le_one
  intro id
  have := h id
  omega

theorem trackedDisjoint_submitPhase (now : String) (env : String → SubmitEnv)
    (st : AgentState) (h : TrackedDisjoint st) :
    TrackedDisjoint (submitPhase now env st) :=
  submitFold_disjoint now env st.activeJobs st h
    (trackedDisjoint_mem_active h) (trackedDisjoint_pairwise_active h)

theorem trackedDisjoint_paymentPhase (now : String) (env : String → PayObs)
    (st : AgentState) (h : TrackedDisjoint st) :
    TrackedDisjoint (paymentPhase now env st) :=
  paymentFold_disjoint now env st.deliveredJobs st h
    (trackedDisjoint_mem_delivered h) (trackedDisjoint_pairwise_delivered h)

theorem trackedDisjoint_changesPhase (env : String → ChangeObs)
    (st : AgentState) (h : TrackedDisjoint st) :
    TrackedDisjoint (changesPhase env st) :=
  changesFold_disjoint env st.deliveredJobs st h
    (trackedDisjoint_mem_delivered h) (trackedDisjoint_pairwise_delivered h)

theorem trackedDisjoint_bidStep (job : JobPost) (category bidStrategy : String)
    (res : HttpResult) (st st1 : AgentState)
    (hok : bidStep job category bidStrategy res st = Except.ok st1)
    (h : TrackedDisjoint st) : TrackedDisjoint st1 := by
  unfold bidStep placeBid at hok
  cases res with
  | transportError => simp at hok
  | ok status =>
    by_cases hs : status = 200 ∨ status = 201
    · simp only [hs, if_true] at hok
      cases hok
      exact h
    · simp only [hs, if_false] at hok
      cases hok
      exact h

/-- C1, counterexample: `pendingBids` is never cleaned.  Starting from a
fresh state, bid successfully on job `j1` (it enters `pendingBids`), then
let `checkBids` observe the bid as accepted: the job is pushed into
`activeJobs` while its pending-bid record stays, so after `checkBids`
completes the id `j1` is in two of the four collections the claim names. -/
theorem claim_C1_counterexample :
    ¬ ClaimedDisjoint (checkBids 200 [⟨"j1", "b1", 2, "accepted"⟩]
        (fun _ => ⟨200, some "T", some "D", [⟨"a1", "in_progress"⟩]⟩)
        ((bidStep ⟨"j1", BudgetField.bNull, "T"⟩ "general" "aggressive"
            (HttpResult.ok 200) initialState).toOption.getD initialState)) := by
  intro h
  have h1 := h "j1"
  revert h1
  decide

/-- C1, amended: with `pendingBids` dropped from the statement, the claimed
disjointness holds of the remaining collections: if `activeJobs`,
`deliveredJobs` and `paidJobs` hold each job id at most once in total, then
the same is true after each of the five lifecycle operations of one polling
cycle completes (`placeBid` with its `pendingBids` push, `checkBids`,
`checkForRequestChanges`, the submit step, the payment check), for every
environment. -/
theorem claim_C1_tracked_disjointness (st : AgentState) (h : TrackedDisjoint st) :
    (∀ (job : JobPost) (category bidStrategy : String) (res : HttpResult)
        (st1 : AgentState),
        bidStep job category bidStrategy res st = Except.ok st1 → TrackedDisjoint st1) ∧
    (∀ (fetchStatus : Nat) (bids : List BidInfo) (detail : String → JobDetailRes),
        TrackedDisjoint (checkBids fetchStatus bids detail st)) ∧
    (∀ env : String → ChangeObs, TrackedDisjoint (changesPhase env st)) ∧
    (∀ (now : String) (env : String → SubmitEnv),
        TrackedDisjoint (submitPhase now env st)) ∧
    (∀ (now : String) (env : String → PayObs),
        TrackedDisjoint (paymentPhase now env st)) :=
  ⟨fun job c b res st1 hok => trackedDisjoint_bidStep job c b res st st1 hok h,
   fun f bs d => trackedDisjoint_checkBids f bs d st h,
   fun env => trackedDisjoint_changesPhase env st h,
   fun now env => trackedDisjoint_submitPhase now env st h,
   fun now env => trackedDisjoint_paymentPhase now env st h⟩

/-- Witness for C1's amended claim, at the fresh state. -/
theorem claim_C1_tracked_disjointness_witness :
    TrackedDisjoint initialState ∧
    ((∀ (job : JobPost) (category bidStrategy : String) (res : HttpResult)
        (st1 : AgentState),
        bidStep job category bidStrategy res initialState = Except.ok st1 →
          TrackedDisjoint st1) ∧
    (∀ (fetchStatus : Nat) (bids : List BidInfo) (detail : String → JobDetailRes),
        TrackedDisjoint (checkBids fetchStatus bids detail initialState)) ∧
    (∀ env : String → ChangeObs, TrackedDisjoint (changesPhase env initialState)) ∧
    (∀ (now : String) (env : String → SubmitEnv),
        TrackedDisjoint (submitPhase now env initialState)) ∧
    (∀ (now : String) (env : String → PayObs),
        TrackedDisjoint (paymentPhase now env initialState))) :=
  have hInit : TrackedDisjoint initialState := fun id => by
    simp [countIn, initialState]
  ⟨hInit, claim_C1_tracked_disjointness initialState hInit⟩

/-- C3: a 409 on `POST /jobs/{id}/submit` is handled exactly like a 2xx for
local state — the resulting `AgentState` is identical, the job is stored in
`deliveredJobs` with status `delivered` and a recorded `deliveredAt`, and it
is removed from `activeJobs`; and across two whole submit phases (a retried
cycle) a job id never occurs twice in `deliveredJobs` when the tracked
collections were disjoint to begin with. -/
theorem claim_C3_conflict_is_success :
    (∀ (now : String) (j : TrackedJob) (st : AgentState),
      applySubmitResult now 409 j st = applySubmitResult now 200 j st) ∧
    (∀ (now : String) (j : TrackedJob) (st : AgentState),
      (applySubmitResult now 409 j st).deliveredJobs =
        st.deliveredJobs ++ [{ j with status := "delivered", deliveredAt := some now }] ∧
      (applySubmitResult now 409 j st).activeJobs =
        st.activeJobs.filter (fun y => y.jobId ≠ j.jobId)) ∧
    (∀ (st : AgentState) (now1 now2 : String)
        (env1 env2 : String → SubmitEnv) (id : String),
      TrackedDisjoint st →
      countIn id (submitPhase now2 env2 (submitPhase now1 env1 st)).deliveredJobs ≤ 1) := by
  refine ⟨fun now j st => rfl, fun now j st => ⟨rfl, rfl⟩, ?_⟩
  intro st now1 now2 env1 env2 id h
  have h2 := trackedDisjoint_submitPhase now2 env2 _
    (trackedDisjoint_submitPhase now1 env1 st h)
  have := h2 id
  omega

/-- Witness for C3's double-submission bound, at the fresh state. -/
theorem claim_C3_conflict_is_success_witness :
    countIn "j1" (submitPhase "t2" (fun _ => ⟨none, true, none, UrlCheck.timeout, 0⟩)
      (submitPhase "t1" (fun _ => ⟨none, true, none, UrlCheck.timeout, 0⟩)
        initialState)).deliveredJobs ≤ 1 :=
  claim_C3_conflict_is_success.2.2 initialState "t1" "t2"
    (fun _ => ⟨none, true, none, UrlCheck.timeout, 0⟩)
    (fun _ => ⟨none, true, none, UrlCheck.timeout, 0⟩) "j1"
    (fun id => by simp [countIn, initialState])

/-! ## Earnings accounting for the payment check -/

/-- Total of the cached bid amounts of a list of tracked jobs. -/
theorem processPaymentJob_paying (now : String) (env : String → PayObs)
    (st : AgentState) (x : TrackedJob) (hp : payingObs (env x.jobId) = true) :
    processPaymentJob now env st x = payMove now x st := by
  unfold processPaymentJob
  unfold payingObs at hp
  cases hobs : env x.jobId with
  | fetchErr => rw [hobs] at hp; cases hp
  | resp status jobStatus assignmentStatus workerId =>
    rw [hobs] at hp
    dsimp only at hp ⊢
    rw [Bool.and_eq_true] at hp
    obtain ⟨hs, hrest⟩ := hp
    rw [if_neg (by simpa using hs)]
    rcases Bool.or_eq_true_iff.mp hrest with h12 | h3
    · rw [if_pos h12]
    · by_cases h12 : (jobStatus = "completed" || assignmentStatus = some "accepted") = true
      · rw [if_pos h12]
      · rw [if_neg h12, if_pos h3]

theorem processPaymentJob_nonpaying (now : String) (env : String → PayObs)
    (st : AgentState) (x : TrackedJob) (hp : payingObs (env x.jobId) = false) :
    (processPaymentJob now env st x).totalEarnings = st.totalEarnings ∧
    (processPaymentJob now env st x).paidJobs = st.paidJobs := by
  unfold processPaymentJob
  unfold payingObs at hp
  cases hobs : env x.jobId with
  | fetchErr => exact ⟨rfl, rfl⟩
  | resp status jobStatus assignmentStatus workerId =>
    rw [hobs] at hp
    dsimp only at hp ⊢
    by_cases hs : status ≠ 200
    · rw [if_pos hs]; exact ⟨rfl, rfl⟩
    · rw [if_neg hs]
      have hs2 : (decide (status = 200)) = true := by
        simp only [ne_eq, not_not] at hs
        simp [hs]
      rw [hs2, Bool.true_and] at hp
      obtain ⟨h12, h3⟩ := Bool.or_eq_false_iff.mp hp
      rw [if_neg (by simp [h12]), if_neg (by simp [h3])]
      by_cases he : jobStatus = "expired"
      · rw [if_pos he]; exact ⟨rfl, rfl⟩
      · rw [if_neg he]; exact ⟨rfl, rfl⟩

theorem processPaymentJob_earnings (now : String) (env : String → PayObs)
    (st : AgentState) (x : TrackedJob) :
    (processPaymentJob now env st x).totalEarnings =
      st.totalEarnings + (if payingObs (env x.jobId) = true then x.amount else 0) := by
  by_cases hp : payingObs (env x.jobId) = true
  · rw [processPaymentJob_paying now env st x hp, if_pos hp]
    rfl
  · have hp2 : payingObs (env x.jobId) = false := by
      cases h : payingObs (env x.jobId)
      · rfl
      · exact absurd h hp
    rw [if_neg hp, (processPaymentJob_nonpaying now env st x hp2).1, add_zero]

theorem paymentFold_earnings (now : String) (env : String → PayObs) :
    ∀ (l : List TrackedJob) (st : AgentState),
      (l.foldl (processPaymentJob now env) st).totalEarnings =
        st.totalEarnings + sumAmounts (l.filter (fun x => payingObs (env x.jobId))) := by
  intro l
  induction l with
  | nil => intro st; simp [sumAmounts]
  | cons x rest ih =>
    intro st
    rw [List.foldl_cons, ih, processPaymentJob_earnings, List.filter_cons]
    by_cases hp : payingObs (env x.jobId) = true
    · simp only [hp, decide_True, if_true, if_pos]
      simp [sumAmounts]
      ring
    · have hp2 : payingObs (env x.jobId) = false := by
        cases h : payingObs (env x.jobId)
        · rfl
        · exact absurd h hp
      simp only [hp2, Bool.false_eq_true, if_false]
      rw [add_zero]

theorem processPaymentJob_paid_mono (now : String) (env : String → PayObs)
    (st : AgentState) (x j : TrackedJob) (h : j ∈ st.paidJobs) :
    j ∈ (processPaymentJob now env st x).paidJobs := by
  rcases processPaymentJob_shape now env st x with heq | ⟨j2, _, hpd, _, _, _⟩ | ⟨hpd, _, _, _⟩
  · rw [heq]; exact h
  · rw [hpd]; exact List.mem_append_left _ h
  · rw [hpd]; exact h

theorem processPaymentJob_countD_mono (now : String) (env : String → PayObs)
    (st : AgentState) (x : TrackedJob) (id : String)
    (h : countIn id st.deliveredJobs = 0) :
    countIn id (processPaymentJob now env st x).deliveredJobs = 0 := by
  rcases processPaymentJob_shape now env st x with heq | ⟨j2, _, _, hdd, _, _⟩ | ⟨_, hdd, _, _⟩
  · rw [heq]; exact h
  · rw [hdd, countIn_filter_ne]
    by_cases hid : id = x.jobId
    · rw [if_pos hid]
    · rw [if_neg hid]; exact h
  · rw [hdd, countIn_filter_ne]
    by_cases hid : id = x.jobId
    · rw [if_pos hid]
    · rw [if_neg hid]; exact h

theorem paymentFold_paid_mem (now : String) (env : String → PayObs) :
    ∀ (l : List TrackedJob) (st : AgentState) (x : TrackedJob), x ∈ l →
      payingObs (env x.jobId) = true →
      (∃ j ∈ (l.foldl (processPaymentJob now env) st).paidJobs, j.jobId = x.jobId) ∧
      countIn x.jobId (l.foldl (processPaymentJob now env) st).deliveredJobs = 0 := by
  intro l
  induction l with
  | nil => intro st x hx; cases hx
  | cons y rest ih =>
    intro st x hx hp
    rw [List.foldl_cons]
    rcases List.mem_cons.mp hx with h1 | h1
    · subst h1
      have hpay := processPaymentJob_paying now env st x hp
      have hbase :
          (∃ j ∈ (processPaymentJob now env st x).paidJobs, j.jobId = x.jobId) ∧
          countIn x.jobId (processPaymentJob now env st x).deliveredJobs = 0 := by
        rw [hpay]
        constructor
        · exact ⟨{ x with paidAt := some now }, List.mem_append_right _ (by simp), rfl⟩
        · unfold payMove
          dsimp only
          rw [countIn_filter_ne, if_pos rfl]
      refine foldl_preserve _ (fun s =>
        (∃ j ∈ s.paidJobs, j.jobId = x.jobId) ∧
          countIn x.jobId s.deliveredJobs = 0) ?_ rest _ hbase
      intro s y2 hs
      refine ⟨?_, processPaymentJob_countD_mono now env s y2 x.jobId hs.2⟩
      obtain ⟨j, hj, hjid⟩ := hs.1
      exact ⟨j, processPaymentJob_paid_mono now env s y2 j hj, hjid⟩
    · exact ih (processPaymentJob now env st y) x h1 hp

/-- C4: on a payment-check pass where exactly the delivered job `x` (cached
amount 2) is observed paying — here with assignment status `accepted` —
`totalEarnings` grows by exactly 2, `x` moves from `deliveredJobs` into
`paidJobs`, and a second payment-check pass over the resulting state accrues
nothing more: the earnings were added exactly once, at the `paid`
transition. -/
theorem claim_C4_earnings_once (now now2 : String) (env : String → PayObs)
    (st : AgentState) (x : TrackedJob)
    (hdisj : TrackedDisjoint st) (hmem : x ∈ st.deliveredJobs) (hamt : x.amount = 2)
    (hobs : ∃ js wid, env x.jobId = PayObs.resp 200 js (some "accepted") wid)
    (hothers : ∀ id, id ≠ x.jobId → payingObs (env id) = false) :
    (paymentPhase now env st).totalEarnings = st.totalEarnings + 2 ∧
    (∃ j ∈ (paymentPhase now env st).paidJobs, j.jobId = x.jobId) ∧
    countIn x.jobId (paymentPhase now env st).deliveredJobs = 0 ∧
    (paymentPhase now2 env (paymentPhase now env st)).totalEarnings =
      st.totalEarnings + 2 := by
  obtain ⟨js, wid, hob⟩ := hobs
  have hpayx : payingObs (env x.jobId) = true := by
    rw [hob]
    unfold payingObs
    simp
  have hfilter : st.deliveredJobs.filter (fun y => payingObs (env y.jobId)) = [x] := by
    have hcongr : st.deliveredJobs.filter (fun y => payingObs (env y.jobId)) =
        st.deliveredJobs.filter (fun y => y.jobId = x.jobId) := by
      apply List.filter_congr
      intro y _
      by_cases hy : y.jobId = x.jobId
      · rw [hy, hpayx]
        simp [hy]
      · rw [hothers y.jobId hy]
        simp [hy]
    rw [hcongr]
    exact filter_eq_singleton_of_countIn_one hmem (by
      have := hdisj x.jobId
      omega)
  have hphase1 : (paymentPhase now env st).totalEarnings = st.totalEarnings + 2 := by
    unfold paymentPhase
    rw [paymentFold_earnings, hfilter]
    simp [sumAmounts, hamt]
  have hrest := paymentFold_paid_mem now env st.deliveredJobs st x hmem hpayx
  refine ⟨hphase1, hrest.1, hrest.2, ?_⟩
  have hnil : List.filter (fun y => payingObs (env y.jobId))
      (List.foldl (processPaymentJob now env) st st.deliveredJobs).deliveredJobs = [] := by
    rw [List.filter_eq_nil]
    intro y hy
    have hyne : y.jobId ≠ x.jobId :=
      all_ne_of_countIn_zero hrest.2 y hy
    rw [hothers y.jobId hyne]
    simp
  unfold paymentPhase at hphase1 ⊢
  rw [paymentFold_earnings, hnil]
  simpa [sumAmounts] using hphase1

/-- Witness for C4: one delivered job `j1` with cached amount 2, observed
with assignment status `accepted`. -/
theorem claim_C4_earnings_once_witness :
    (⟨"j1", "b1", 2, "T", "D", "delivered", true, some "a1", some "submitted",
        some "t0", none, none⟩ : TrackedJob) ∈
      (⟨[], [], [⟨"j1", "b1", 2, "T", "D", "delivered", true, some "a1",
          some "submitted", some "t0", none, none⟩], [], [], 0, 0, 0, []⟩ :
        AgentState).deliveredJobs ∧
    ((paymentPhase "t1"
        (fun id => if id = "j1" then PayObs.resp 200 "in_review" (some "accepted") none
          else PayObs.fetchErr)
        ⟨[], [], [⟨"j1", "b1", 2, "T", "D", "delivered", true, some "a1",
          some "submitted", some "t0", none, none⟩], [], [], 0, 0, 0, []⟩).totalEarnings
      = 0 + 2) := by
  have h := claim_C4_earnings_once "t1" "t2"
    (fun id => if id = "j1" then PayObs.resp 200 "in_review" (some "accepted") none
      else PayObs.fetchErr)
    ⟨[], [], [⟨"j1", "b1", 2, "T", "D", "delivered", true, some "a1",
      some "submitted", some "t0", none, none⟩], [], [], 0, 0, 0, []⟩
    ⟨"j1", "b1", 2, "T", "D", "delivered", true, some "a1", some "submitted",
      some "t0", none, none⟩
    (by
      intro id
      simp only [countIn, List.filter]
      by_cases hid : ("j1" : String) = id <;> simp [hid])
    (by simp)
    rfl
    ⟨"in_review", none, by simp⟩
    (by
      intro id hid
      simp only [if_neg hid]
      rfl)
  exact ⟨by simp, h.1⟩

/-! ## The pre-flight verification gate -/

theorem submitAfterMessage_log (now : String) (e : SubmitEnv) (j1 : TrackedJob)
    (st1 : AgentState) (jid : String) :
    (submitAfterMessage now e j1 st1 jid).submitLog = st1.submitLog ∨
    (submitAfterMessage now e j1 st1 jid).submitLog = st1.submitLog ++ [jid] := by
  unfold submitAfterMessage
  cases e.work with
  | none => left; rfl
  | some w =>
    by_cases hv : verifyUrlStatus e.urlCheck = false
    · left; rw [if_pos hv]
    · rw [if_neg hv]
      unfold applySubmitResult
      by_cases h2 : e.submitStatus = 200 ∨ e.submitStatus = 201
      · right; rw [if_pos h2]; rfl
      · rw [if_neg h2]
        by_cases h4 : e.submitStatus = 409
        · right; rw [if_pos h4]; rfl
        · right; rw [if_neg h4]

theorem processSubmitJob_skip_step (now : String) (env : String → SubmitEnv)
    (id : String) (hwork : ∃ w, (env id).work = some w)
    (hverify : verifyUrlStatus (env id).urlCheck = false)
    (st : AgentState) (y : TrackedJob)
    (h : (∃ j ∈ st.activeJobs, j.jobId = id ∧ j.status = "awarded") ∧
      id ∉ st.submitLog) :
    (∃ j ∈ (processSubmitJob now env st y).activeJobs,
        j.jobId = id ∧ j.status = "awarded") ∧
      id ∉ (processSubmitJob now env st y).submitLog := by
  obtain ⟨⟨j, hjmem, hjid, hjstat⟩, hlog⟩ := h
  unfold processSubmitJob
  by_cases hstat : y.status ≠ "awarded"
  · rw [if_pos hstat]
    exact ⟨⟨j, hjmem, hjid, hjstat⟩, hlog⟩
  · rw [if_neg hstat]
    have hystat : y.status = "awarded" := not_not.mp hstat
    by_cases hy : y.jobId = id
    · obtain ⟨w, hw⟩ := hwork
      rw [hy]
      unfold submitAfterMessage
      rw [hw]
      dsimp only
      rw [if_pos hverify]
      refine ⟨⟨sendWorkingMessageUpd (env id) y, ?_, ?_, ?_⟩, hlog⟩
      · have himg := List.mem_map_of_mem
          (fun x => if x.jobId = id then sendWorkingMessageUpd (env id) y else x) hjmem
        dsimp only at himg
        rwa [if_pos hjid] at himg
      · rw [sendWorkingMessageUpd_jobId, hy]
      · rw [sendWorkingMessageUpd_status, hystat]
    · have hj1id := sendWorkingMessageUpd_jobId (env y.jobId) y
      have hjmem1 : j ∈ (st.activeJobs.map (fun x =>
          if x.jobId = y.jobId then sendWorkingMessageUpd (env y.jobId) y else x)) := by
        have himg := List.mem_map_of_mem
          (fun x => if x.jobId = y.jobId then sendWorkingMessageUpd (env y.jobId) y else x)
          hjmem
        dsimp only at himg
        rwa [if_neg (by rw [hjid]; exact fun hh => hy hh.symm)] at himg
      refine ⟨?_, ?_⟩
      · rcases submitAfterMessage_shape now (env y.jobId)
            (sendWorkingMessageUpd (env y.jobId) y)
            { st with activeJobs := st.activeJobs.map (fun x =>
                if x.jobId = y.jobId then sendWorkingMessageUpd (env y.jobId) y else x) }
            y.jobId hj1id with
          ⟨_, ha, _⟩ | ⟨j2, _, _, ha, _⟩
        · rw [ha]
          exact ⟨j, hjmem1, hjid, hjstat⟩
        · rw [ha]
          refine ⟨j, List.mem_filter.mpr ⟨hjmem1, ?_⟩, hjid, hjstat⟩
          rw [hjid]
          have hne : ¬ (id = y.jobId) := fun h => hy (Eq.symm h)
          simpa using hne
      · rcases submitAfterMessage_log now (env y.jobId)
            (sendWorkingMessageUpd (env y.jobId) y)
            { st with activeJobs := st.activeJobs.map (fun x =>
                if x.jobId = y.jobId then sendWorkingMessageUpd (env y.jobId) y else x) }
            y.jobId with hlg | hlg
        · rw [hlg]; exact hlog
        · rw [hlg]
          intro hmem
          rcases List.mem_append.mp hmem with hmem1 | hmem1
          · exact hlog hmem1
          · rw [List.mem_singleton] at hmem1
            exact hy hmem1.symm

/-- C5: `verifyUrlStatus` resolves `true` exactly for a response status in
200–399 (any other status, transport error or timeout gives `false`), and in
a submit phase whose environment gives the job a deliverable that fails the
pre-flight check, the job is still in `activeJobs` with status `awarded`
after the phase completes and no submit request was issued for it. -/
theorem claim_C5_preflight_gate :
    (∀ r : UrlCheck, verifyUrlStatus r = true ↔
      ∃ n, r = UrlCheck.response n ∧ 200 ≤ n ∧ n ≤ 399) ∧
    (∀ (now : String) (env : String → SubmitEnv) (st : AgentState)
        (x : TrackedJob) (w : Deliverable),
      x ∈ st.activeJobs → x.status = "awarded" → x.jobId ∉ st.submitLog →
      (env x.jobId).work = some w →
      verifyUrlStatus (env x.jobId).urlCheck = false →
      (∃ j ∈ (submitPhase now env st).activeJobs,
        j.jobId = x.jobId ∧ j.status = "awarded") ∧
      x.jobId ∉ (submitPhase now env st).submitLog) := by
  constructor
  · intro r
    cases r with
    | response n =>
      simp only [verifyUrlStatus, Bool.and_eq_true, decide_eq_true_eq]
      constructor
      · intro ⟨h1, h2⟩
        exact ⟨n, rfl, h1, by omega⟩
      · intro ⟨m, hm, h1, h2⟩
        cases hm
        exact ⟨h1, by omega⟩
    | transportError =>
      simp only [verifyUrlStatus]
      constructor
      · intro h; cases h
      · intro ⟨m, hm, _⟩; cases hm
    | timeout =>
      simp only [verifyUrlStatus]
      constructor
      · intro h; cases h
      · intro ⟨m, hm, _⟩; cases hm
  · intro now env st x w hmem hstat hlog hwork hverify
    exact foldl_preserve (processSubmitJob now env)
      (fun s => (∃ j ∈ s.activeJobs, j.jobId = x.jobId ∧ j.status = "awarded") ∧
        x.jobId ∉ s.submitLog)
      (fun s y hs => processSubmitJob_skip_step now env x.jobId ⟨w, hwork⟩ hverify s y hs)
      st.activeJobs st ⟨⟨x, hmem, rfl, hstat⟩, hlog⟩

/-- Witness for C5: a 404 on the deliverable URL of the single active job
leaves it awarded in `activeJobs`, with no submit request issued. -/
theorem claim_C5_preflight_gate_witness :
    (verifyUrlStatus (UrlCheck.response 404) = true ↔
      ∃ n, UrlCheck.response 404 = UrlCheck.response n ∧ 200 ≤ n ∧ n ≤ 399) ∧
    ((∃ j ∈ (submitPhase "t1"
        (fun _ => ⟨none, true, some ⟨"u", "h"⟩, UrlCheck.response 404, 200⟩)
        ⟨[], [⟨"j1", "b1", 2, "T", "D", "awarded", true, some "a1", none,
          none, none, none⟩], [], [], [], 0, 0, 0, []⟩).activeJobs,
        j.jobId = "j1" ∧ j.status = "awarded") ∧
      ("j1" : String) ∉ (submitPhase "t1"
        (fun _ => ⟨none, true, some ⟨"u", "h"⟩, UrlCheck.response 404, 200⟩)
        ⟨[], [⟨"j1", "b1", 2, "T", "D", "awarded", true, some "a1", none,
          none, none, none⟩], [], [], [], 0, 0, 0, []⟩).submitLog) :=
  ⟨claim_C5_preflight_gate.1 (UrlCheck.response 404),
   claim_C5_preflight_gate.2 "t1"
    (fun _ => ⟨none, true, some ⟨"u", "h"⟩, UrlCheck.response 404, 200⟩)
    ⟨[], [⟨"j1", "b1", 2, "T", "D", "awarded", true, some "a1", none,
      none, none, none⟩], [], [], [], 0, 0, 0, []⟩
    ⟨"j1", "b1", 2, "T", "D", "awarded", true, some "a1", none, none, none, none⟩
    ⟨"u", "h"⟩ (by simp) rfl (by simp) rfl rfl⟩

/-! ## Request-changes handling -/

theorem processChangeJob_keep_step (env : String → ChangeObs) (id : String)
    (target : TrackedJob) (st : AgentState) (y : TrackedJob)
    (h : (∃ j ∈ st.activeJobs, j = target) ∧ countIn id st.deliveredJobs = 0) :
    (∃ j ∈ (processChangeJob env st y).activeJobs, j = target) ∧
      countIn id (processChangeJob env st y).deliveredJobs = 0 := by
  obtain ⟨⟨j, hjmem, hj⟩, hz⟩ := h
  rcases processChangeJob_shape env st y with heq | ⟨j2, _, ha, hd, _⟩
  · rw [heq]
    exact ⟨⟨j, hjmem, hj⟩, hz⟩
  · refine ⟨⟨j, ?_, hj⟩, ?_⟩
    · rw [ha]; exact List.mem_append_left _ hjmem
    · rw [hd, countIn_filter_ne]
      by_cases hid : id = y.jobId
      · rw [if_pos hid]
      · rw [if_neg hid]; exact hz

theorem changesFold_in_progress (env : String → ChangeObs) (x : TrackedJob)
    (a : AssignmentInfo) (assignments : List AssignmentInfo)
    (msgRes : Option (Nat × List String))
    (hobs : env x.jobId = ChangeObs.resp 200 assignments msgRes)
    (hhead : assignments.head? = some a) (hip : a.status = "in_progress") :
    ∀ (l : List TrackedJob) (st : AgentState), x ∈ l →
      (∃ j ∈ (l.foldl (processChangeJob env) st).activeJobs,
        j = reworkJob x a msgRes) ∧
      countIn x.jobId (l.foldl (processChangeJob env) st).deliveredJobs = 0 := by
  intro l
  induction l with
  | nil => intro st hx; cases hx
  | cons y rest ih =>
    intro st hx
    rw [List.foldl_cons]
    rcases List.mem_cons.mp hx with h1 | h1
    · subst h1
      have hbase :
          (∃ j ∈ (processChangeJob env st x).activeJobs, j = reworkJob x a msgRes) ∧
          countIn x.jobId (processChangeJob env st x).deliveredJobs = 0 := by
        unfold processChangeJob
        rw [hobs]
        dsimp only
        rw [if_neg (by simp), hhead]
        dsimp only
        rw [if_pos hip]
        refine ⟨⟨reworkJob x a msgRes, List.mem_append_right _ (by simp), rfl⟩, ?_⟩
        rw [countIn_filter_ne, if_pos rfl]
      exact foldl_preserve _ (fun s =>
        (∃ j ∈ s.activeJobs, j = reworkJob x a msgRes) ∧
          countIn x.jobId s.deliveredJobs = 0)
        (fun s y2 hs => processChangeJob_keep_step env x.jobId (reworkJob x a msgRes) s y2 hs)
        rest _ hbase
    · exact ih (processChangeJob env st y) h1

theorem processChangeJob_disputed_step (env : String → ChangeObs) (x : TrackedJob)
    (a : AssignmentInfo) (assignments : List AssignmentInfo)
    (msgRes : Option (Nat × List String))
    (hobs : env x.jobId = ChangeObs.resp 200 assignments msgRes)
    (hhead : assignments.head? = some a) (hdisp : a.status = "disputed")
    (st : AgentState) (y : TrackedJob) (hx : x ∈ st.deliveredJobs) :
    x ∈ (processChangeJob env st y).deliveredJobs := by
  by_cases hyid : y.jobId = x.jobId
  · unfold processChangeJob
    rw [hyid, hobs]
    dsimp only
    rw [if_neg (by simp), hhead]
    dsimp only
    rw [if_neg (by rw [hdisp]; decide)]
    exact hx
  · rcases processChangeJob_shape env st y with heq | ⟨j2, _, _, hd, _⟩
    · rw [heq]; exact hx
    · rw [hd]
      refine List.mem_filter.mpr ⟨hx, ?_⟩
      have hne : ¬ (x.jobId = y.jobId) := fun h => hyid (Eq.symm h)
      simpa using hne

/-- C8: for a delivered job whose re-fetched first assignment has status
`in_progress`, `checkForRequestChanges` moves the job into `activeJobs` with
status reset to `awarded` and `messageSent` equal to `true`, attaching the
latest feedback message when the message fetch succeeds with a non-empty
list (behind the truthy assignment-id guard), and removes the id from
`deliveredJobs`; for a delivered job whose first assignment is `disputed`,
the job object stays in `deliveredJobs` with no field changed. -/
theorem claim_C8_request_changes (env : String → ChangeObs) (st : AgentState)
    (x : TrackedJob) (a : AssignmentInfo) (assignments : List AssignmentInfo)
    (msgRes : Option (Nat × List String))
    (hmem : x ∈ st.deliveredJobs)
    (hobs : env x.jobId = ChangeObs.resp 200 assignments msgRes)
    (hhead : assignments.head? = some a) :
    (a.status = "in_progress" →
      (∃ j ∈ (changesPhase env st).activeJobs,
        j.jobId = x.jobId ∧ j.status = "awarded" ∧ j.messageSent = true ∧
        (∀ (msgs : List String) (m : String), a.assignment_id ≠ "" →
          msgRes = some (200, msgs) → msgs.getLast? = some m →
          j.changesFeedback = some m)) ∧
      countIn x.jobId (changesPhase env st).deliveredJobs = 0) ∧
    (a.status = "disputed" → x ∈ (changesPhase env st).deliveredJobs) := by
  constructor
  · intro hip
    have h := changesFold_in_progress env x a assignments msgRes hobs hhead hip
      st.deliveredJobs st hmem
    obtain ⟨⟨j, hjmem, hj⟩, hz⟩ := h
    refine ⟨⟨j, hjmem, ?_, ?_, ?_, ?_⟩, hz⟩
    · rw [hj, reworkJob_jobId]
    · rw [hj, reworkJob_status]
    · rw [hj, reworkJob_messageSent]
    · intro msgs m haid hmsg hlast
      rw [hj, hmsg]
      exact reworkJob_feedback x a msgs m haid hlast
  · intro hdisp
    exact foldl_preserve _ (fun s => x ∈ s.deliveredJobs)
      (fun s y hs =>
        processChangeJob_disputed_step env x a assignments msgRes hobs hhead hdisp s y hs)
      st.deliveredJobs st hmem

/-- Witness for C8: one delivered job `j1` whose assignment reverted to
`in_progress`, with one feedback message `fix it`. -/
theorem claim_C8_request_changes_witness :
    ((("in_progress" : String) = "in_progress" →
      (∃ j ∈ (changesPhase
          (fun _ => ChangeObs.resp 200 [⟨"a1", "in_progress"⟩] (some (200, ["fix it"])))
          ⟨[], [], [⟨"j1", "b1", 2, "T", "D", "delivered", true, some "a1",
            some "submitted", some "t0", none, none⟩], [], [], 0, 0, 0, []⟩).activeJobs,
        j.jobId = ("j1" : String) ∧ j.status = "awarded" ∧ j.messageSent = true ∧
        (∀ (msgs : List String) (m : String), ("a1" : String) ≠ "" →
          (some ((200 : Nat), ["fix it"]) : Option (Nat × List String)) = some (200, msgs) →
          msgs.getLast? = some m →
          j.changesFeedback = some m)) ∧
      countIn "j1" (changesPhase
          (fun _ => ChangeObs.resp 200 [⟨"a1", "in_progress"⟩] (some (200, ["fix it"])))
          ⟨[], [], [⟨"j1", "b1", 2, "T", "D", "delivered", true, some "a1",
            some "submitted", some "t0", none, none⟩], [], [], 0, 0, 0, []⟩).deliveredJobs = 0) ∧
    (("in_progress" : String) = "disputed" →
      (⟨"j1", "b1", 2, "T", "D", "delivered", true, some "a1", some "submitted",
        some "t0", none, none⟩ : TrackedJob) ∈ (changesPhase
          (fun _ => ChangeObs.resp 200 [⟨"a1", "in_progress"⟩] (some (200, ["fix it"])))
          ⟨[], [], [⟨"j1", "b1", 2, "T", "D", "delivered", true, some "a1",
            some "submitted", some "t0", none, none⟩], [], [], 0, 0, 0, []⟩).deliveredJobs)) :=
  claim_C8_request_changes
    (fun _ => ChangeObs.resp 200 [⟨"a1", "in_progress"⟩] (some (200, ["fix it"])))
    ⟨[], [], [⟨"j1", "b1", 2, "T", "D", "delivered", true, some "a1",
      some "submitted", some "t0", none, none⟩], [], [], 0, 0, 0, []⟩
    ⟨"j1", "b1", 2, "T", "D", "delivered", true, some "a1", some "submitted",
      some "t0", none, none⟩
    ⟨"a1", "in_progress"⟩ [⟨"a1", "in_progress"⟩] (some (200, ["fix it"]))
    (by simp) rfl rfl

/-! ## The bounded build-verify-fix loop -/

theorem buildTestLoop_fixes_le (env : BuildEnv) (usedAI : Bool) :
    ∀ (remaining attempt : Nat) (files : List GenFile) (fixes : Nat),
      (buildTestLoop env usedAI remaining attempt files fixes).2 ≤ fixes + remaining := by
  intro remaining
  induction remaining with
  | zero =>
    intro attempt files fixes
    unfold buildTestLoop
    cases env.install attempt with
    | fail => simp
    | ok =>
      dsimp only
      rw [if_neg (by simp), if_neg (by simp)]
      simp
  | succ r ih =>
    intro attempt files fixes
    unfold buildTestLoop
    cases env.install attempt with
    | fail => simp
    | ok =>
      by_cases hb : env.build attempt = StepRes.fail ∧ 0 < r + 1 ∧ usedAI = true
      · rw [if_pos hb]
        have := ih (attempt + 1) (fixWithAIModel files (env.fixOutput attempt)) (fixes + 1)
        simpa using Nat.le_trans this (by omega)
      · rw [if_neg hb]
        by_cases ht : env.test attempt = StepRes.fail ∧ 0 < r + 1 ∧ usedAI = true
        · rw [if_pos ht]
          have := ih (attempt + 1) (fixWithAIModel files (env.fixOutput attempt)) (fixes + 1)
          simpa using Nat.le_trans this (by omega)
        · rw [if_neg ht]
          simp

theorem buildTestLoop_no_ai (env : BuildEnv) :
    ∀ (remaining attempt : Nat) (files : List GenFile) (fixes : Nat),
      buildTestLoop env false remaining attempt files fixes = (files, fixes) := by
  intro remaining attempt files fixes
  unfold buildTestLoop
  cases env.install attempt with
  | fail => rfl
  | ok =>
    dsimp only
    rw [if_neg (by simp), if_neg (by simp)]

/-- C7: the Node.js build-and-test cycle performs at most
`maxFixAttempts = 2` AI correction rounds; with the template fallback
(`usedAI = false`) no correction is ever requested; a dependency-install
failure breaks out at once with the current files; in the worst case of a
build failing at every attempt the loop stops after exactly 2 fix rounds;
and whatever the build and test outcomes, `doRealWork` goes on to publish a
deliverable from the last-known files — only a hosting failure can make it
return `null`.  (Every failure branch of the loop is caught in the source,
so the model is a total function: the loop cannot throw.) -/
theorem claim_C7_bounded_fix_loop :
    (∀ (env : BuildEnv) (usedAI : Bool) (files : List GenFile),
      (runBuildVerifyFix env usedAI files).2 ≤ maxFixAttempts) ∧
    (∀ (env : BuildEnv) (files : List GenFile),
      runBuildVerifyFix env false files = (files, 0)) ∧
    (∀ (env : BuildEnv) (usedAI : Bool) (files : List GenFile),
      env.install 0 = StepRes.fail → runBuildVerifyFix env usedAI files = (files, 0)) ∧
    (∀ (env : BuildEnv) (files : List GenFile),
      (∀ n, env.install n = StepRes.ok) → (∀ n, env.build n = StepRes.fail) →
      (runBuildVerifyFix env true files).2 = maxFixAttempts) ∧
    (∀ (env : BuildEnv) (usedAI : Bool) (files : List GenFile) (url : String),
      doRealWorkModel env usedAI files (fun _ => some url) = some url) := by
  refine ⟨?_, ?_, ?_, ?_, ?_⟩
  · intro env usedAI files
    have := buildTestLoop_fixes_le env usedAI maxFixAttempts 0 files 0
    simpa [runBuildVerifyFix] using this
  · intro env files
    exact buildTestLoop_no_ai env maxFixAttempts 0 files 0
  · intro env usedAI files hfail
    unfold runBuildVerifyFix buildTestLoop
    rw [hfail]
  · intro env files hinst hbuild
    unfold runBuildVerifyFix
    unfold buildTestLoop
    rw [hinst 0]
    dsimp only
    rw [if_pos ⟨hbuild 0, by decide, rfl⟩]
    unfold buildTestLoop
    rw [hinst 1]
    dsimp only
    rw [if_pos ⟨hbuild 1, by decide, rfl⟩]
    unfold buildTestLoop
    rw [hinst 2]
    dsimp only
    rw [if_neg (fun h => absurd h.2.1 (by decide)),
      if_neg (fun h => absurd h.2.1 (by decide))]
    rfl
  · intro env usedAI files url
    rfl

/-- Witness for C7's install-failure and worst-case clauses. -/
theorem claim_C7_bounded_fix_loop_witness :
    runBuildVerifyFix ⟨fun _ => StepRes.fail, fun _ => StepRes.ok, fun _ => StepRes.ok,
        fun _ => none⟩ true [] = ([], 0) ∧
    (runBuildVerifyFix ⟨fun _ => StepRes.ok, fun _ => StepRes.fail, fun _ => StepRes.ok,
        fun _ => none⟩ true []).2 = maxFixAttempts :=
  ⟨claim_C7_bounded_fix_loop.2.2.1
      ⟨fun _ => StepRes.fail, fun _ => StepRes.ok, fun _ => StepRes.ok, fun _ => none⟩
      true [] rfl,
   claim_C7_bounded_fix_loop.2.2.2.1
      ⟨fun _ => StepRes.ok, fun _ => StepRes.fail, fun _ => StepRes.ok, fun _ => none⟩
      [] (fun _ => rfl) (fun _ => rfl)⟩

/-! ## Round-tripping parseGeneratedFiles over the fix-prompt serialisation -/

theorem takeWhile_append_of_any (p : Char → Bool) :
    ∀ (a b : List Char), a.any (fun x => !p x) = true →
      (a ++ b).takeWhile p = a.takeWhile p ∧
      (a ++ b).dropWhile p = a.dropWhile p ++ b := by
  intro a
  induction a with
  | nil => intro b h; cases h
  | cons c a' ih =>
    intro b h
    by_cases hc : p c = true
    · have h' : a'.any (fun x => !p x) = true := by
        simp only [List.any_cons, Bool.or_eq_true] at h
        rcases h with h | h
        · rw [hc] at h; cases h
        · exact h
      have := ih b h'
      simp only [List.cons_append, List.takeWhile_cons, List.dropWhile_cons, hc,
        if_true, this.1, this.2]
      exact ⟨trivial, trivial⟩
    · have hc2 : p c = false := by
        cases h2 : p c
        · rfl
        · exact absurd h2 hc
      simp [List.takeWhile_cons, List.dropWhile_cons, hc2]

theorem dropWhile_append_of_all (p : Char → Bool) :
    ∀ (a b : List Char), (∀ x ∈ a, p x = true) →
      (a ++ b).dropWhile p = b.dropWhile p := by
  intro a
  induction a with
  | nil => intro b _; rfl
  | cons c a' ih =>
    intro b h
    have hc := h c (List.mem_cons_self c a')
    simp only [List.cons_append, List.dropWhile_cons, hc, if_true]
    exact ih b (fun x hx => h x (List.mem_cons_of_mem c hx))

theorem dropWhile_cons_neg (p : Char → Bool) (c : Char) (l : List Char)
    (hc : p c = false) : (c :: l).dropWhile p = c :: l := by
  simp [List.dropWhile_cons, hc]

theorem matchMarker_nil : matchMarker [] = none := rfl

theorem matchMarker_cons_ne (c : Char) (l : List Char) (hc : ¬ c = '=') :
    matchMarker (c :: l) = none := by
  unfold matchMarker
  rw [if_pos]
  rw [List.takeWhile_cons, if_neg (by simpa using hc)]
  simp

theorem fileWord_nil : fileWord [] = none := rfl

theorem fileWord_eq_head (r : List Char) : fileWord ('=' :: r) = none := by
  unfold fileWord
  rcases r with _ | ⟨c2, _ | ⟨c3, _ | ⟨c4, _ | ⟨c5, rest⟩⟩⟩⟩
  · rfl
  · rfl
  · rfl
  · rfl
  · dsimp only
    rw [if_neg]
    simp

theorem fileWord_nl2 (c1 : Char) (r : List Char) :
    fileWord (c1 :: '\n' :: r) = none := by
  unfold fileWord
  rcases r with _ | ⟨c3, _ | ⟨c4, _ | ⟨c5, rest⟩⟩⟩
  · rfl
  · rfl
  · rfl
  · dsimp only
    rw [if_neg]
    simp

theorem fileWord_nl3 (c1 c2 : Char) (r : List Char) :
    fileWord (c1 :: c2 :: '\n' :: r) = none := by
  unfold fileWord
  rcases r with _ | ⟨c4, _ | ⟨c5, rest⟩⟩
  · rfl
  · rfl
  · dsimp only
    rw [if_neg]
    simp

theorem fileWord_nl4 (c1 c2 c3 : Char) (r : List Char) :
    fileWord (c1 :: c2 :: c3 :: '\n' :: r) = none := by
  unfold fileWord
  rcases r with _ | ⟨c5, rest⟩
  · rfl
  · dsimp only
    rw [if_neg]
    simp

theorem fileWord_nl5 (c1 c2 c3 c4 : Char) (r : List Char) :
    fileWord (c1 :: c2 :: c3 :: c4 :: '\n' :: r) = none := by
  unfold fileWord
  dsimp only
  rw [if_neg]
  simp

theorem takeWhile_append_of_all (p : Char → Bool) :
    ∀ (a b : List Char), (∀ x ∈ a, p x = true) →
      (a ++ b).takeWhile p = a ++ b.takeWhile p := by
  intro a
  induction a with
  | nil => intro b _; rfl
  | cons c a' ih =>
    intro b h
    have hc := h c (List.mem_cons_self c a')
    simp only [List.cons_append, List.takeWhile_cons, hc, if_true]
    rw [ih b (fun x hx => h x (List.mem_cons_of_mem c hx))]

theorem fileWord_c1_ne (c1 : Char) (r : List Char) (h : ¬ c1.toLower = 'f') :
    fileWord (c1 :: r) = none := by
  unfold fileWord
  rcases r with _ | ⟨c2, _ | ⟨c3, _ | ⟨c4, _ | ⟨c5, rest⟩⟩⟩⟩
  · rfl
  · rfl
  · rfl
  · rfl
  · dsimp only
    rw [if_neg]
    simp [h]

theorem fileWord_append (v cont : List Char) (h : fileWord v = none)
    (hc : cont = [] ∨ ∃ r, cont = '\n' :: r) :
    fileWord (v ++ cont) = none := by
  rcases v with _ | ⟨c1, _ | ⟨c2, _ | ⟨c3, _ | ⟨c4, _ | ⟨c5, rest⟩⟩⟩⟩⟩
  · rcases hc with hc | ⟨r, hc⟩
    · simp [hc]
      exact h
    · rw [List.nil_append, hc]
      exact fileWord_c1_ne '\n' r (by decide)
  · rcases hc with hc | ⟨r, hc⟩
    · rw [hc, List.append_nil]
      exact h
    · rw [hc]
      exact fileWord_nl2 c1 r
  · rcases hc with hc | ⟨r, hc⟩
    · rw [hc, List.append_nil]
      exact h
    · rw [hc]
      exact fileWord_nl3 c1 c2 r
  · rcases hc with hc | ⟨r, hc⟩
    · rw [hc, List.append_nil]
      exact h
    · rw [hc]
      exact fileWord_nl4 c1 c2 c3 r
  · rcases hc with hc | ⟨r, hc⟩
    · rw [hc, List.append_nil]
      exact h
    · rw [hc]
      exact fileWord_nl5 c1 c2 c3 c4 r
  · unfold fileWord at h ⊢
    dsimp only [List.cons_append] at h ⊢
    by_cases hcond : (c1.toLower = 'f' && c2.toLower = 'i' && c3.toLower = 'l'
        && c4.toLower = 'e' && c5 = ':') = true
    · rw [if_pos hcond] at h
      cases h
    · rw [if_neg hcond] at h ⊢

theorem matchMarker_append_none (t cont : List Char)
    (h : matchMarker t = none)
    (hc : cont = [] ∨ ∃ r, cont = '\n' :: '\n' :: '=' :: r) :
    matchMarker (t ++ cont) = none := by
  have hcw : cont.takeWhile (fun c => c = '=') = [] := by
    rcases hc with hc | ⟨r, hc⟩
    · rw [hc]; rfl
    · rw [hc, List.takeWhile_cons, if_neg (by simp)]
  have hfw_cont : fileWord (cont.dropWhile isSpc) = none := by
    rcases hc with hc | ⟨r, hc⟩
    · rw [hc]; rfl
    · rw [hc]
      rw [show (('\n' :: '\n' :: '=' :: r).dropWhile isSpc) = '=' :: r by
        simp [List.dropWhile_cons, isSpc]]
      exact fileWord_eq_head r
  by_cases hall : ∀ x ∈ t, (decide (x = '=')) = true
  · -- t is all '='
    unfold matchMarker at h ⊢
    rw [takeWhile_append_of_all _ t cont hall, hcw, List.append_nil]
    by_cases h3 : t.length < 3
    · rw [if_pos (by
        have : t.takeWhile (fun c => c = '=') = t := List.takeWhile_eq_self_iff.mpr hall
        omega)]
    · rw [if_neg (by
        have : t.takeWhile (fun c => c = '=') = t := List.takeWhile_eq_self_iff.mpr hall
        omega)]
      rw [dropWhile_append_of_all _ t cont hall]
      rcases hc with hc2 | ⟨r, hc2⟩
      · rw [hc2]; rfl
      · rw [hc2]
        rw [show (('\n' :: '\n' :: '=' :: r).dropWhile (fun c => decide (c = '='))) =
          '\n' :: '\n' :: '=' :: r by rw [dropWhile_cons_neg]; simp]
        rw [show (('\n' :: '\n' :: '=' :: r).dropWhile isSpc) = '=' :: r by
          simp [List.dropWhile_cons, isSpc]]
        exact fileWord_eq_head r
  · -- t has a non-'=' character
    have hany : t.any (fun x => !(decide (x = '='))) = true := by
      rw [List.any_eq_true]
      push_neg at hall
      obtain ⟨x, hx1, hx2⟩ := hall
      exact ⟨x, hx1, by simp [hx2]⟩
    obtain ⟨htw, hdw⟩ := takeWhile_append_of_any _ t cont hany
    unfold matchMarker at h ⊢
    rw [htw, hdw]
    by_cases h3 : (t.takeWhile (fun c => c = '=')).length < 3
    · rw [if_pos h3]
    · rw [if_neg h3] at h ⊢
      set u := t.dropWhile (fun c => c = '=') with hu
      by_cases huall : ∀ x ∈ u, isSpc x = true
      · rw [dropWhile_append_of_all _ u cont huall]
        exact hfw_cont
      · have huany : u.any (fun x => !(isSpc x)) = true := by
          rw [List.any_eq_true]
          push_neg at huall
          obtain ⟨x, hx1, hx2⟩ := huall
          exact ⟨x, hx1, by simp [hx2]⟩
        obtain ⟨_, hdw2⟩ := takeWhile_append_of_any _ u cont huany
        rw [hdw2]
        refine fileWord_append _ cont h ?_
        rcases hc with hc2 | ⟨r, hc2⟩
        · left; exact hc2
        · right; exact ⟨'\n' :: '=' :: r, by rw [hc2]⟩

/-- The marker regex consumes exactly the prefix "=== FILE: " when what
follows starts with a non-space character: the greedy trailing whitespace
match stops right before the path. -/
theorem marker_consume (p rest : List Char) (hne : p ≠ []) (hh : headNotSpc p = true) :
    matchMarker ("=== FILE: ".toList ++ p ++ rest) = some (p ++ rest) := by
  obtain ⟨c, p', rfl⟩ : ∃ c p', p = c :: p' := by
    cases p with
    | nil => exact absurd rfl hne
    | cons c p' => exact ⟨c, p', rfl⟩
  have hc : isSpc c = false := by
    unfold headNotSpc at hh
    simpa using hh
  unfold matchMarker
  rw [if_neg (by simp [List.takeWhile_cons])]
  rw [show (("=== FILE: ".toList ++ (c :: p') ++ rest).dropWhile (fun x => x = '=')) =
    ' ' :: 'F' :: 'I' :: 'L' :: 'E' :: ':' :: ' ' :: c :: (p' ++ rest) by
      simp [List.dropWhile_cons]]
  rw [show ((' ' :: 'F' :: 'I' :: 'L' :: 'E' :: ':' :: ' ' :: c :: (p' ++ rest)).dropWhile isSpc) =
    'F' :: 'I' :: 'L' :: 'E' :: ':' :: ' ' :: c :: (p' ++ rest) by
      simp [List.dropWhile_cons, isSpc]]
  unfold fileWord
  dsimp only
  rw [if_pos (by decide)]
  rw [show ((' ' :: c :: (p' ++ rest)).dropWhile isSpc) = c :: (p' ++ rest) by
      rw [List.dropWhile_cons, if_pos (show isSpc ' ' = true by decide),
        List.dropWhile_cons, if_neg (by simp [hc])]]
  simp

/-- One scanning step of the splitter when the marker matches at the head. -/
theorem splitMarkerAux_some (g : Nat) (l acc r : List Char) (hl : l ≠ [])
    (h : matchMarker l = some r) :
    splitMarkerAux (g + 1) l acc = acc.reverse :: splitMarkerAux g r [] := by
  cases l with
  | nil => exact absurd rfl hl
  | cons c rest =>
    conv_lhs => unfold splitMarkerAux
    rw [h]

/-- Scanning over a stretch with no marker match at any of its non-empty
suffixes just accumulates the characters and spends one unit of fuel per
character. -/
theorem splitMarkerAux_scan (b : List Char) :
    ∀ (a : List Char) (fuel : Nat) (acc : List Char),
    a.length + b.length ≤ fuel →
    (∀ a1 a2, a = a1 ++ a2 → a2 ≠ [] → matchMarker (a2 ++ b) = none) →
    splitMarkerAux fuel (a ++ b) acc
      = splitMarkerAux (fuel - a.length) b (a.reverse ++ acc) := by
  intro a
  induction a with
  | nil => intro fuel acc _ _; simp
  | cons c a' ih =>
    intro fuel acc hfuel hnm
    cases fuel with
    | zero => simp at hfuel
    | succ g =>
      have hstep : matchMarker (c :: (a' ++ b)) = none := by
        have := hnm [] (c :: a') rfl (by simp)
        simpa using this
      rw [List.cons_append]
      conv_lhs => unfold splitMarkerAux
      rw [hstep]
      have ih' := ih g (c :: acc)
        (by simp at hfuel ⊢; omega)
        (fun a1 a2 hsplit hne => hnm (c :: a1) a2 (by rw [hsplit, List.cons_append]) hne)
      rw [ih']
      simp [List.reverse_cons, List.append_assoc, Nat.succ_sub_succ]

theorem serializeFiles_single (f : GenFile) :
    serializeFiles [f] = "=== FILE: ".toList ++ blockBody f := by
  simp [serializeFiles, List.intercalate, blockBody, List.append_assoc]

theorem serializeFiles_cons2 (f g : GenFile) (gs : List GenFile) :
    serializeFiles (f :: g :: gs)
      = "=== FILE: ".toList ++ blockBody f ++ "\n\n".toList
          ++ serializeFiles (g :: gs) := by
  simp [serializeFiles, List.intercalate, blockBody, List.append_assoc,
    List.intersperse]

theorem serializeFiles_head (g : GenFile) (gs : List GenFile) :
    ∃ r, serializeFiles (g :: gs) = '=' :: r := by
  cases gs with
  | nil =>
    exact ⟨"== FILE: ".toList ++ blockBody g, by rw [serializeFiles_single]; rfl⟩
  | cons h t =>
    exact ⟨"== FILE: ".toList ++ blockBody g ++ "\n\n".toList ++ serializeFiles (h :: t),
      by rw [serializeFiles_cons2]; simp⟩

/-- No non-empty suffix of the final file block matches the marker regex
when the block is followed by nothing. -/
theorem block_nm_last (f : GenFile) (hg : ∀ t ∈ (blockBody f).tails, matchMarker t = none) :
    ∀ a1 a2, blockBody f = a1 ++ a2 → a2 ≠ [] →
      matchMarker (a2 ++ ([] : List Char)) = none := by
  intro a1 a2 hsplit _
  rw [List.append_nil]
  exact hg a2 ((List.mem_tails _ _).mpr ⟨a1, hsplit.symm⟩)

/-- No non-empty suffix of a file block plus its blank-line joiner matches
the marker regex, even with the rest of the serialisation (which starts
with an equals sign) appended: a match torn across the boundary would need
the continuation to begin the tail of a marker, which a newline never
does. -/
theorem block_nm_mid (f : GenFile) (hg : ∀ t ∈ (blockBody f).tails, matchMarker t = none)
    (b' : List Char) :
    ∀ a1 a2, blockBody f ++ "\n\n".toList = a1 ++ a2 → a2 ≠ [] →
      matchMarker (a2 ++ '=' :: b') = none := by
  intro a1 a2 hsplit hne
  rcases List.append_eq_append_iff.mp hsplit.symm with ⟨a', hB, ha2⟩ | ⟨c', ha1, hsep⟩
  · subst ha2
    cases a' with
    | nil =>
      rw [show (("\n\n".toList : List Char)) = ['\n', '\n'] from rfl]
      rw [List.nil_append, List.cons_append, List.cons_append]
      exact matchMarker_cons_ne _ _ (by decide)
    | cons x xs =>
      have hnone : matchMarker (x :: xs) = none :=
        hg (x :: xs) ((List.mem_tails _ _).mpr ⟨a1, hB.symm⟩)
      rw [show (("\n\n".toList : List Char)) = ['\n', '\n'] from rfl]
      rw [List.append_assoc]
      exact matchMarker_append_none (x :: xs) _ hnone
        (Or.inr ⟨b', by simp⟩)
  · have hsuf : a2 <:+ ("\n\n".toList : List Char) := ⟨c', hsep.symm⟩
    rw [show (("\n\n".toList : List Char)) = ['\n', '\n'] from rfl] at hsuf
    rcases hsuf with ⟨c'', hc''⟩
    cases c'' with
    | nil =>
      simp at hc''
      rw [hc'', List.cons_append, List.cons_append]
      exact matchMarker_cons_ne _ _ (by decide)
    | cons y ys =>
      cases ys with
      | nil =>
        simp at hc''
        rw [hc''.2, List.cons_append]
        exact matchMarker_cons_ne _ _ (by decide)
      | cons z zs =>
        have hlen := congrArg List.length hc''
        simp [List.length_append] at hlen
        exact absurd hlen.2 hne

/-- Splitting the serialisation of a non-empty list of good files yields
the accumulated prefix followed by exactly one piece per file. -/
theorem splitAux_serialize : ∀ (files : List GenFile), files ≠ [] →
    (∀ f ∈ files, goodFile f) →
    ∀ (fuel : Nat) (acc : List Char), (serializeFiles files).length ≤ fuel →
    splitMarkerAux fuel (serializeFiles files) acc = acc.reverse :: sectionsOf files := by
  intro files
  induction files with
  | nil => intro h; exact absurd rfl h
  | cons f rest ih =>
    intro _ hg fuel acc hfuel
    have hgf := hg f (List.mem_cons_self f rest)
    have hpath : f.path ≠ [] := hgf.1
    have hhead : headNotSpc f.path = true := hgf.2.2.1
    have htails : ∀ t ∈ (blockBody f).tails, matchMarker t = none := hgf.2.2.2.2.2.1
    have hmm : matchMarker ("=== FILE: ".toList ++ blockBody f) = some (blockBody f) := by
      have := marker_consume f.path (" ===\n".toList ++ f.content) hpath hhead
      simpa [blockBody, List.append_assoc] using this
    cases rest with
    | nil =>
      rw [serializeFiles_single] at hfuel ⊢
      have hlen : ("=== FILE: ".toList ++ blockBody f).length
          = 10 + (blockBody f).length := by
        rw [List.length_append]; rfl
      cases fuel with
      | zero => rw [hlen] at hfuel; omega
      | succ g =>
        rw [splitMarkerAux_some g _ acc (blockBody f) (by simp) hmm]
        rw [show (blockBody f) = blockBody f ++ ([] : List Char) by rw [List.append_nil]]
        rw [splitMarkerAux_scan [] (blockBody f) g []
          (by rw [hlen] at hfuel; simp; omega)
          (block_nm_last f htails)]
        simp [sectionsOf, splitMarkerAux]
    | cons g0 gs =>
      rw [serializeFiles_cons2] at hfuel ⊢
      obtain ⟨b', hb'⟩ := serializeFiles_head g0 gs
      have hlen : ("=== FILE: ".toList ++ blockBody f ++ "\n\n".toList
          ++ serializeFiles (g0 :: gs)).length
          = 10 + (blockBody f).length + 2 + (serializeFiles (g0 :: gs)).length := by
        simp [List.length_append]
        omega
      cases fuel with
      | zero => rw [hlen] at hfuel; omega
      | succ g =>
        have hmm2 : matchMarker ("=== FILE: ".toList ++ blockBody f ++ "\n\n".toList
            ++ serializeFiles (g0 :: gs))
            = some (blockBody f ++ "\n\n".toList ++ serializeFiles (g0 :: gs)) := by
          have := marker_consume f.path
            (" ===\n".toList ++ f.content ++ "\n\n".toList ++ serializeFiles (g0 :: gs))
            hpath hhead
          rw [show "=== FILE: ".toList ++ f.path
              ++ (" ===\n".toList ++ f.content ++ "\n\n".toList ++ serializeFiles (g0 :: gs))
              = "=== FILE: ".toList ++ blockBody f ++ "\n\n".toList
                ++ serializeFiles (g0 :: gs) by
            simp [blockBody, List.append_assoc]] at this
          rw [show f.path ++ (" ===\n".toList ++ f.content ++ "\n\n".toList
              ++ serializeFiles (g0 :: gs))
              = blockBody f ++ "\n\n".toList ++ serializeFiles (g0 :: gs) by
            simp [blockBody, List.append_assoc]] at this
          exact this
        rw [splitMarkerAux_some g _ acc _ (by simp) hmm2]
        rw [show blockBody f ++ "\n\n".toList ++ serializeFiles (g0 :: gs)
            = (blockBody f ++ "\n\n".toList) ++ serializeFiles (g0 :: gs) from rfl]
        rw [splitMarkerAux_scan (serializeFiles (g0 :: gs)) (blockBody f ++ "\n\n".toList) g []
          (by rw [hlen] at hfuel; simp; omega)
          (by rw [hb']; exact block_nm_mid f htails b')]
        rw [ih (by simp) (fun x hx => hg x (List.mem_cons_of_mem f hx))
          (g - (blockBody f ++ "\n\n".toList).length)
          ((blockBody f ++ "\n\n".toList).reverse ++ [])
          (by rw [hlen] at hfuel; simp; omega)]
        simp [sectionsOf]

/-- Splitting at the first newline of a newline-free prefix followed by a
newline recovers the two halves. -/
theorem splitAtNewline_append (l1 l2 : List Char) (h : '\n' ∉ l1) :
    splitAtNewline (l1 ++ '\n' :: l2) = some (l1, l2) := by
  induction l1 with
  | nil => rfl
  | cons c r ih =>
    have hc : ¬ c = '\n' := fun hcc => h (hcc ▸ List.mem_cons_self c r)
    have hr : '\n' ∉ r := fun hm => h (List.mem_cons_of_mem c hm)
    rw [List.cons_append]
    rw [show splitAtNewline (c :: (r ++ '\n' :: l2))
        = match splitAtNewline (r ++ '\n' :: l2) with
          | some (a, b) => some (c :: a, b)
          | none => none by
      conv_lhs => unfold splitAtNewline
      simp [hc]]
    rw [ih hr]

/-- Parsing one section consisting of a good file block, with or without
the blank-line joiner still attached, recovers the file exactly. -/
theorem processSection_block (f : GenFile) (sep : List Char) (hg : goodFile f)
    (hsep : sep = [] ∨ sep = "\n\n".toList) :
    processSection (blockBody f ++ sep) = some f := by
  obtain ⟨h1, h2, _, h4, h5, _, h7, h8, h9, h10⟩ := hg
  have hform : blockBody f ++ sep
      = (f.path ++ " ===".toList) ++ '\n' :: (f.content ++ sep) := by
    unfold blockBody
    rw [show (" ===\n".toList : List Char) = " ===".toList ++ ['\n'] from rfl]
    simp [List.append_assoc]
  have hnl : '\n' ∉ f.path ++ " ===".toList := by
    intro hm
    rcases List.mem_append.mp hm with hm | hm
    · exact h4 hm
    · exact absurd hm (by decide)
  rw [hform]
  unfold processSection
  rw [splitAtNewline_append _ _ hnl]
  dsimp only
  rw [h5]
  rcases hsep with rfl | rfl
  · rw [List.append_nil, h7, h9, h10, if_pos ⟨h1, h2⟩]
  · rw [h8, h9, h10, if_pos ⟨h1, h2⟩]

/-- Parsing the split pieces of a serialised good file list recovers the
list exactly. -/
theorem filterMap_sections : ∀ (files : List GenFile),
    (∀ f ∈ files, goodFile f) →
    (sectionsOf files).filterMap processSection = files := by
  intro files
  induction files with
  | nil => intro _; rfl
  | cons f rest ih =>
    intro hg
    cases rest with
    | nil =>
      have hps := processSection_block f [] (hg f (List.mem_cons_self f [])) (Or.inl rfl)
      rw [List.append_nil] at hps
      simp [sectionsOf, List.filterMap_cons, hps]
    | cons g0 gs =>
      have hps := processSection_block f "\n\n".toList
        (hg f (List.mem_cons_self f (g0 :: gs))) (Or.inr rfl)
      have ihh := ih (fun x hx => hg x (List.mem_cons_of_mem f hx))
      have hps2 : processSection (blockBody f ++ ['\n', '\n']) = some f := hps
      simp [sectionsOf, List.filterMap_cons, hps2, ihh]

/-- C9, counterexample to the claim as stated: a file whose content embeds
the marker-like substring "=== FILE: x ===" away from line start does not
round-trip, because the split regex has no line anchor and matches it,
tearing the content into two parsed files. -/
theorem claim_C9_counterexample :
    ¬ (parseGeneratedFiles (serializeFiles
        [⟨"a.txt".toList, "foo === FILE: x ===\nbar".toList⟩])
      = [⟨"a.txt".toList, "foo === FILE: x ===\nbar".toList⟩]) := by
  decide

/-- C9 (amended): for every list of files with non-empty path and content
in which each path starts with a non-space character, contains no newline
and survives the equals-run removal and trimming of the header line, no
suffix of a file block matches the marker regex (in particular no embedded
marker-like substring, at line start or not), and each content survives
the trailing-marker strip, the trimming (bare and with the blank-line
joiner attached) and the fence strips, serialising with fixWithAI's
"=== FILE: path ===" convention and reparsing with parseGeneratedFiles
yields the identical list. -/
theorem claim_C9_roundtrip (files : List GenFile)
    (hg : ∀ f ∈ files, goodFile f) :
    parseGeneratedFiles (serializeFiles files) = files := by
  cases files with
  | nil => rfl
  | cons f rest =>
    unfold parseGeneratedFiles splitMarker
    rw [splitAux_serialize (f :: rest) (by simp) hg
      (serializeFiles (f :: rest)).length [] (le_refl _)]
    exact filterMap_sections (f :: rest) hg

/-- C9 witness: a concrete two-file list satisfying the amended conditions
round-trips exactly. -/
theorem claim_C9_roundtrip_witness :
    (∀ f ∈ [(⟨"a.txt".toList, "hello world".toList⟩ : GenFile),
            ⟨"src/b.js".toList, "const x = 1;\nmodule.exports = x;".toList⟩],
        goodFile f) ∧
    parseGeneratedFiles (serializeFiles
        [(⟨"a.txt".toList, "hello world".toList⟩ : GenFile),
         ⟨"src/b.js".toList, "const x = 1;\nmodule.exports = x;".toList⟩])
      = [(⟨"a.txt".toList, "hello world".toList⟩ : GenFile),
         ⟨"src/b.js".toList, "const x = 1;\nmodule.exports = x;".toList⟩] :=
  ⟨by decide, claim_C9_roundtrip _ (by decide)⟩

end AutoEarn
